import Mathlib

/-!
# Verification of the Diaphora export/import core

This file is a shallow embedding, in Lean 4, of the core algorithms of the
Diaphora binary-diffing plugin (`src/diaphora_ida.py`):

* the instruction-level diff importer (`row_is_importable`,
  `import_instruction_level`, `import_instruction`, `do_import_one`),
* the per-function exporter (`read_function`) together with the resumable
  batch pipeline (`do_export`, `export`, `get_last_crash_func`,
  `recalculate_primes`).

Modelling conventions:

* IDA host API calls (`FlowChart`, `GetMnem`, `GetManyBytes`,
  `CodeRefsFrom`, name/demangling queries, ...) are modelled as fields of a
  host structure: their answers are data supplied by the environment.
* Python unbounded integers are `Int`/`Nat`; python `list`s are `List`s;
  python dicts are insertion-ordered association lists (the code never
  depends on python dict iteration order for anything that reaches a
  record: the only iterated dict, `assembly`, is explicitly sorted first).
* Fallible python operations are modelled in `Except PyErr`:
  `list.remove` raising `ValueError`, subscripts raising `KeyError` or
  `IndexError`, and the read of an unbound local raising `NameError`.
* Code of the repository that is not under `src/` (`diaphora.py`,
  `others/tarjan_sort.py`, `jkutils/factor.py`) is modelled from the spec;
  each such definition carries a doc comment starting with
  `Modelled from the spec:`.
* `md5` digests are modelled as the raw byte sequences they digest
  (injective up to collisions, which no claim depends on), and
  `decimal.Decimal` arithmetic on the irrational-weighted MD-index is
  modelled as exact real arithmetic; the MD-index value is kept as the
  list of 5-tuples the code sums over, with the real-valued sum as a
  projection.
-/

set_option maxRecDepth 40000

namespace Diaphora

/-- Python errors that the modelled fragments can raise. -/
inductive PyErr where
  | valueError
  | keyError
  | indexError
  | nameError
  | typeError

deriving instance DecidableEq, Repr for PyErr

/-- Python list subscript `l[i]` with negative-index wraparound;
`none` models an `IndexError`. -/
def pyGet {α : Type} (l : List α) (i : Int) : Option α :=
  if 0 ≤ i then l.get? i.toNat
  else if 0 ≤ i + l.length then l.get? (i + l.length).toNat
  else none

/-- Python `list.remove`: drops the first occurrence of `x`, raising
`ValueError` when `x` is absent. -/
def pyRemove {α : Type} [DecidableEq α] (l : List α) (x : α) :
    Except PyErr (List α) :=
  if x ∈ l then .ok (l.erase x) else .error .valueError

/-- Pointwise update of a total map, used for the mutable IDA database
state touched by the importer. -/
def upd {α : Type} (f : Int → α) (k : Int) (v : α) : Int → α :=
  fun a => if a = k then v else f a

/-! ## Part I: the instruction-level diff importer

Source: `src/diaphora_ida.py`, lines 1053-1253. -/

/-- One row of the `instructions` table as selected by
`import_instruction_level` (src 1136-1155): address, the two repeatable
comments, operand name, type, disassembly, pseudocode comment and its
placement. The list layout in the python code is
`[ea, cmt1, cmt2, name, type, dis, cmt, itp]` (indices 0-7). -/
structure InsData where
  ea : Int
  cmt1 : Option String
  cmt2 : Option String
  nm : Option String
  ty : Option String
  dis : Option String
  pcmt : Option String
  itp : Option Int

deriving instance DecidableEq, Repr for InsData

/-- The `import_syms` / `matched_syms` dictionaries built at src 1152-1155
and 1170-1173: keyed by instruction address, later rows overwrite earlier
ones exactly as repeated python dict assignment does. -/
def symsOf (rows : List InsData) : Int → Option InsData :=
  fun a => rows.reverse.find? (fun d => d.ea == a)

/-- `row_is_importable`, src/diaphora_ida.py:1109-1130, verbatim: the row
must be present, and then the code tests column 1 (`cmt1`), column 2
(`cmt2`), column 2 once more (under the comment `# Has a name`; column 3,
the name, is never consulted) and column 6 (the pseudocode comment). -/
def row_is_importable (ea2 : Int) (import_syms : Int → Option InsData) :
    Bool :=
  match import_syms ea2 with
  | none => false
  | some d =>
    -- Has cmt1
    if d.cmt1.isSome then true
    -- Has cmt2
    else if d.cmt2.isSome then true
    -- Has a name (the source re-reads index 2, the second comment, here)
    else if d.cmt2.isSome then true
    -- Has pseudocode comment
    else if d.pcmt.isSome then true
    else false

/-- One aligned line pair produced by `difflib._mdiff` (an external python
standard-library collaborator, hence host-supplied data): the optional
1-based line number of each side (`none` models the empty filler string)
and whether the side's text carries the `\x00-` / `\x00+` intraline
change marker tested at src 1210-1211. -/
structure DiffEntry where
  leftLine : Option Int
  leftDel : Bool
  rightLine : Option Int
  rightIns : Bool

deriving instance DecidableEq, Repr for DiffEntry

/-- The pair-collection loop of `import_instruction_level`
(src 1198-1219).  For each aligned pair with both line numbers present the
two sides are resolved through the parallel `assembly_addrs` arrays
(`address1[int(left_line)-1]`, an `IndexError` when out of range); the
pair is then proposed when `changed or is_importable` holds (src 1214),
and actually imported when additionally `ea2 in matched_syms and
ea1 in import_syms` (src 1217, with precisely this orientation of the two
lookups).  The result is the list of `import_instruction` argument pairs,
in order. -/
def diff_loop (address1 address2 : List Int)
    (import_syms matched_syms : Int → Option InsData) :
    List DiffEntry → Except PyErr (List (InsData × InsData))
  | [] => .ok []
  | e :: rest =>
    match e.leftLine, e.rightLine with
    | some ll, some rl =>
      match pyGet address1 (ll - 1), pyGet address2 (rl - 1) with
      | some ea1, some ea2 =>
        let changed := e.leftDel && e.rightIns
        let is_importable := row_is_importable ea2 import_syms
        if changed || is_importable then
          match matched_syms ea2, import_syms ea1 with
          | some m, some i =>
            (diff_loop address1 address2 import_syms matched_syms rest).map
              (fun l => (m, i) :: l)
          | _, _ => diff_loop address1 address2 import_syms matched_syms rest
        else diff_loop address1 address2 import_syms matched_syms rest
      | _, _ => .error .indexError
    | _, _ => diff_loop address1 address2 import_syms matched_syms rest

/-- The guard of src 1214 in isolation: a pair `(ea1, ea2)` of resolved
addresses is proposed for propagation iff the alignment marked it changed
or `row_is_importable` accepts the target-side address. -/
def pair_proposed (e : DiffEntry) (ea2 : Int)
    (import_syms : Int → Option InsData) : Bool :=
  (e.leftDel && e.rightIns) || row_is_importable ea2 import_syms

/-- `import_instruction_level`, src/diaphora_ida.py:1132-1222, up to the
per-pair calls of `import_instruction` (returned as a list).
`import_rows` models the annotated-instruction query on the diff database
(every selected row has at least one of comment1/comment2/name/
pseudocomment non-null, src 1145-1148), `match_rows` the instruction query
on the primary database, `diff_rows` the `(assembly, assembly_addrs)`
union query, and `mdiff` the line alignment computed by
`difflib._mdiff`.  Note that the code guards `len(diff_rows) > 0` but
then reads both `diff_rows[0]` and `diff_rows[1]` (src 1189-1191). -/
def import_instruction_level (import_rows match_rows : List InsData)
    (diff_rows : List (String × List Int)) (mdiff : List DiffEntry) :
    Except PyErr (List (InsData × InsData)) :=
  if import_rows.length > 0 then
    let import_syms := symsOf import_rows
    if match_rows.length > 0 then
      let matched_syms := symsOf match_rows
      if diff_rows.length > 0 then
        match diff_rows.get? 0, diff_rows.get? 1 with
        | some r0, some r1 =>
          diff_loop r0.2 r1.2 import_syms matched_syms mdiff
        | _, _ => .error .indexError
      else .ok []
    else .ok []
  else .ok []

/-- The IDA-side environment queried by `import_instruction` and
`do_import_one`: data references, code references, the offset flag, the
name snapshot `self.names` loaded once per session (src 606), whether the
decompiler yields a function at an address, and which `MakeNameEx`
attempts the host accepts.  `autoGen` models `self.is_auto_generated`
(defined in `diaphora.py`, which is not under `src/`; it is kept as an
abstract predicate, so every theorem below holds for any choice of it). -/
structure IHost where
  base : Int
  drefs : Int → List Int
  crefs0 : Int → List Int
  crefs1 : Int → List Int
  isOffAll : Int → Bool
  snapshot : Int → Bool
  autoGen : String → Bool
  decompOk : Int → Bool
  mkNameOk : Int → String → Bool

/-- The mutable IDA database state written by the importer: the two
repeatable instruction comments (`get_cmt`/`set_cmt` slots 0 and 1), the
pseudocode comments keyed by address (value: placement and text), the
live names (`GetTrueName`/`MakeName`; `none` is an unnamed address, and
`GetTrueName` then yields the empty string), the types
(`GetType`/`SetType`), and the function comments and flags set by
`do_import_one`. -/
structure IState where
  cmt0 : Int → Option String
  cmt1 : Int → Option String
  psc : Int → Option (Option Int × String)
  nm : Int → Option String
  typ : Int → Option String
  fcmt : Int → Option String
  fflags : Int → Option Int

/-- First comment write of `import_instruction` (src 1057-1058):
`if cmt1 is not None and get_cmt(ea1, 0) is None: set_cmt(ea1, cmt1, 0)`. -/
def iiC1 (h : IHost) (d1 d2 : InsData) (s : IState) : IState :=
  if d2.cmt1.isSome && (s.cmt0 (h.base + d1.ea)).isNone then
    { s with cmt0 := upd s.cmt0 (h.base + d1.ea) d2.cmt1 } else s

/-- Second comment write of `import_instruction` (src 1060-1061). -/
def iiC2 (h : IHost) (d1 d2 : InsData) (s : IState) : IState :=
  if d2.cmt2.isSome && (s.cmt1 (h.base + d1.ea)).isNone then
    { s with cmt1 := upd s.cmt1 (h.base + d1.ea) d2.cmt2 } else s

/-- Pseudocode comment write of `import_instruction` (src 1063-1071):
unconditional whenever the row carries one and the decompiler succeeds. -/
def iiC3 (h : IHost) (d1 d2 : InsData) (s : IState) : IState :=
  match d2.pcmt with
  | some c =>
    if h.decompOk (h.base + d1.ea) then
      { s with psc := upd s.psc (h.base + d1.ea) (some (d2.itp, c)) }
    else s
  | none => s

/-- The comment-setting section of `import_instruction`
(src/diaphora_ida.py:1053-1071), with `ea1 = base + int(ins_data1[0])`. -/
def iiCmts (h : IHost) (d1 d2 : InsData) (s : IState) : IState :=
  iiC3 h d1 d2 (iiC2 h d1 d2 (iiC1 h d1 d2 s))

/-- The rename/retype section of `import_instruction` (src 1073-1107). -/
def iiRename (h : IHost) (d1 d2 : InsData) (s : IState) : IState :=
  let ea1 := h.base + d1.ea
  match h.drefs ea1 with
  | t :: _ =>
    -- Global variables
    if h.snapshot t then
      let curr := (s.nm t).getD ("")
      if d2.nm != some curr && h.autoGen curr then
        { s with nm := upd s.nm t d2.nm }
      else s
    else
      -- If it is an object, rename the true global variable, not the offset
      let t2 := if h.isOffAll t then (h.drefs t).headD t else t
      let s := { s with nm := upd s.nm t2 d2.nm }
      if d2.ty.isSome && (s.typ t2 != d2.ty) then
        { s with typ := upd s.typ t2 d2.ty }
      else s
  | [] =>
    -- Functions
    let code_refs := if h.crefs0 ea1 ≠ [] then h.crefs0 ea1 else h.crefs1 ea1
    match code_refs with
    | c :: _ =>
      let curr := (s.nm c).getD ("")
      if d2.nm != some curr && h.autoGen curr then
        let s := { s with nm := upd s.nm c d2.nm }
        if d2.ty.isSome && (s.typ c != d2.ty) then
          { s with typ := upd s.typ c d2.ty }
        else s
      else s
    | [] => s

/-- `import_instruction`, src/diaphora_ida.py:1053-1107: the
comment-setting section followed by the rename/retype section.  `d1` is
the row passed as `ins_data1` (only its address is used), `d2` the row
passed as `ins_data2`, matching the unpacking
`ea2, cmt1, cmt2, name, mtype, mdis, mcmt, mitp = ins_data2`. -/
def import_instruction (h : IHost) (d1 d2 : InsData) (s : IState) :
    IState :=
  iiRename h d1 d2 (iiCmts h d1 d2 s)

/-- Folding `import_instruction` over the pair list produced by
`import_instruction_level` (the pair list depends only on the two
immutable exported databases, not on the IDA state, so re-running the
importer replays the same list). -/
def runOps (h : IHost) (ops : List (InsData × InsData)) (s : IState) :
    IState :=
  ops.foldl (fun st p => import_instruction h p.1 p.2 st) s

/-- The `diff.functions` row consumed by `do_import_one`
(src 1226-1233). -/
structure DiffFuncRow where
  proto : Option String
  comment : Option String
  mangled : String
  fflags : Option Int

deriving instance DecidableEq, Repr for DiffFuncRow

/-- The name attempts of src 1236-1240: `name` first, then `name_0` ..
`name_9`. -/
def makeNameSeq (nm : String) : List String :=
  nm :: (List.range 10).map (fun i => nm ++ ("_") ++ toString i)

/-- The function-level actions of `do_import_one` (src 1235-1249): the
`MakeNameEx` cascade, `SetType` of a non-trivial prototype,
`SetFunctionCmt` of a non-empty comment, and `SetFunctionFlags`. -/
def funcLevelImport (h : IHost) (r : DiffFuncRow) (ea1 : Int)
    (force : Bool) (s : IState) : IState :=
  let s :=
    if (!(r.mangled.startsWith ("sub_"))) || force then
      match (makeNameSeq r.mangled).find? (fun n => h.mkNameOk ea1 n) with
      | some n => { s with nm := upd s.nm ea1 (some n) }
      | none => s
    else s
  let s := match r.proto with
    | some p =>
      if p ≠ ("int()") then { s with typ := upd s.typ ea1 (some p) } else s
    | none => s
  let s := match r.comment with
    | some c =>
      if c ≠ ("") then { s with fcmt := upd s.fcmt ea1 (some c) } else s
    | none => s
  match r.fflags with
  | some fl => { s with fflags := upd s.fflags ea1 (some fl) }
  | none => s

/-- `do_import_one`, src/diaphora_ida.py:1224-1253: when the diff
database has a row for `ea2` the function-level actions run, then the
instruction-level import runs, modelled by its collected pair list
`ops` (the pair list only depends on the two immutable databases). -/
def do_import_one (h : IHost) (row : Option DiffFuncRow) (ea1 : Int)
    (force : Bool) (ops : List (InsData × InsData)) (s : IState) :
    IState :=
  match row with
  | none => s
  | some r => runOps h ops (funcLevelImport h r ea1 force s)

/-! ### Claims C1 and C4 -/

/-- A diff-database instruction row carrying only a name: no comments, no
pseudocode comment.  The annotated-rows query of src 1145-1148 selects it
(`ins.name is not null`), so it is present in `import_syms`. -/
def dC1 : InsData :=
  { ea := 7, cmt1 := none, cmt2 := none, nm := some ("imported_name"),
    ty := none, dis := some ("mov eax, g"), pcmt := none, itp := none }

/-- An aligned, unchanged line pair (no intraline change markers) whose
sides are both line 1. -/
def entC1 : DiffEntry :=
  { leftLine := some 1, leftDel := false, rightLine := some 1,
    rightIns := false }

/-- C1, failing input: an unchanged aligned pair whose target address 7
carries only a name.  The claim says the pair is still proposed
(eligibility rule (b) names "a comment, a name, or a pseudocode-level
comment").  The code disagrees: `row_is_importable` re-tests column 2
(the second comment) under its `# Has a name` comment and never reads the
name column, so the name-only row is rejected, the guard of src 1214 is
false, and the pair list stays empty. -/
theorem c1_name_only_row_not_proposed :
    symsOf [ dC1 ] 7 = some dC1 ∧
    dC1.nm.isSome = true ∧
    dC1.cmt1 = none ∧ dC1.cmt2 = none ∧ dC1.pcmt = none ∧
    row_is_importable 7 (symsOf [ dC1 ]) = false ∧
    pair_proposed entC1 7 (symsOf [ dC1 ]) = false ∧
    diff_loop [ 5 ] [ 7 ] (symsOf [ dC1 ]) (symsOf [ dC1 ]) [ entC1 ] =
      .ok [] :=
  ⟨rfl, rfl, rfl, rfl, rfl, rfl, rfl, rfl⟩

/-- An arbitrary annotated instruction row used in the C4 input. -/
def dC4 : InsData :=
  { ea := 1, cmt1 := some ("a comment"), cmt2 := none, nm := none,
    ty := none, dis := some ("call foo"), pcmt := none, itp := none }

/-- C4, counterexample: when exactly one of the two functions has stored
assembly, the union query yields a single row, `len(diff_rows) > 0`
passes, and `diff_rows[1]` (src 1191) raises `IndexError` instead of
silently skipping the pair. -/
theorem c4_counterexample :
    import_instruction_level [ dC4 ] [ dC4 ]
      [ (("mov eax, 1"), [ 1 ]) ] [] = .error .indexError := rfl

/-- C4, amended: if the diff side has no importable rows, or the primary
side has no matching instruction rows, or neither side has stored
assembly (the union query is empty), the pair is silently skipped: no
`import_instruction` call is made and no exception is raised.  (When
exactly one side has assembly the importer instead raises `IndexError`,
see the counterexample.) -/
theorem c4_amended (import_rows match_rows : List InsData)
    (diff_rows : List (String × List Int)) (mdiff : List DiffEntry)
    (hmiss : import_rows = [] ∨ match_rows = [] ∨ diff_rows = []) :
    import_instruction_level import_rows match_rows diff_rows mdiff =
      .ok [] := by
  rcases hmiss with h | h | h <;> subst h <;>
    simp only [import_instruction_level, List.length_nil] <;>
    repeat' split <;> try rfl
  all_goals omega

/-- Witness for `c4_amended` at a concrete input. -/
theorem c4_amended_witness :
    ([ dC4 ] = ([] : List InsData) ∨ [ dC4 ] = ([] : List InsData) ∨
      ([] : List (String × List Int)) = []) ∧
    import_instruction_level [ dC4 ] [ dC4 ] [] [] = .ok [] :=
  ⟨Or.inr (Or.inr rfl),
    c4_amended [ dC4 ] [ dC4 ] [] [] (Or.inr (Or.inr rfl))⟩

/-! ### Claim C6: per-component analysis of the importer

Each `import_instruction` call touches each mutable component at one
statically-determined address, reading only that address.  We therefore
study three small per-address update algebras: guarded renames
(`NOp`/`napp`), fill-only comment writes (`capp`) and unconditional
writes (`papp`). -/

/-- The effect of one rename site on the name stored at its target:
`guard` is the rename of the snapshot-hit and code-reference branches
(guarded by the current name differing and being auto-generated),
`uncond` the unconditional rename of the snapshot-miss branch. -/
inductive NOp where
  | guard : Option String → NOp
  | uncond : Option String → NOp

deriving instance DecidableEq, Repr for NOp

/-- The firing condition of a guarded rename: the proposed name differs
from the current one (`GetTrueName` renders an unnamed address as the
empty string) and the current name is auto-generated. -/
def nfire (auto : String → Bool) (nv v : Option String) : Bool :=
  nv != some (v.getD ("")) && auto (v.getD (""))

def napp (auto : String → Bool) : NOp → Option String → Option String
  | .guard nv, v => if nfire auto nv v then nv else v
  | .uncond nv, _ => nv

def napps (auto : String → Bool) (l : List NOp) (v : Option String) :
    Option String :=
  l.foldl (fun v o => napp auto o v) v

theorem napps_cons (auto : String → Bool) (o : NOp) (l : List NOp)
    (v : Option String) :
    napps auto (o :: l) v = napps auto l (napp auto o v) := rfl

/-- An unconditional rename later in the list makes the final value
independent of the start value. -/
theorem napps_resync (auto : String → Bool) :
    ∀ (l : List NOp), (∃ nv, NOp.uncond nv ∈ l) →
      ∀ (x y : Option String), napps auto l x = napps auto l y
  | [], h, _, _ => absurd h.choose_spec (List.not_mem_nil _)
  | NOp.uncond nv :: rest, _, x, y => by
      rw [napps_cons, napps_cons]
      rfl
  | NOp.guard nv :: rest, h, x, y => by
      rcases h with ⟨nv2, hmem⟩
      rcases List.mem_cons.mp hmem with h1 | h2
      · cases h1
      · rw [napps_cons, napps_cons]
        exact napps_resync auto rest ⟨nv2, h2⟩ _ _

/-- From a non-auto-generated name, a list of guarded renames changes
nothing. -/
theorem napps_nofire (auto : String → Bool) :
    ∀ (l : List NOp), (∀ nv, NOp.uncond nv ∉ l) →
      ∀ (v : Option String), auto (v.getD ("")) = false →
        napps auto l v = v
  | [], _, _, _ => rfl
  | NOp.uncond nv :: rest, hna, _, _ =>
      absurd (List.mem_cons_self _ _) (hna nv)
  | NOp.guard nv :: rest, hna, v, hv => by
      have hstep : napp auto (NOp.guard nv) v = v := by
        simp [napp, nfire, hv]
      rw [napps_cons, hstep]
      exact napps_nofire auto rest
        (fun nv2 hmem => hna nv2 (List.mem_cons_of_mem _ hmem)) v hv

theorem napp_guard_fire (auto : String → Bool) {nv v : Option String}
    (h : nfire auto nv v = true) :
    napp auto (NOp.guard nv) v = nv := by
  simp [napp, h]

theorem napp_guard_skip (auto : String → Bool) {nv v : Option String}
    (h : nfire auto nv v = false) :
    napp auto (NOp.guard nv) v = v := by
  simp [napp, h]

/-- Replaying a rename list on its own output is a no-op, provided no
rename carries the empty-string name (database names are never the empty
string; `GetTrueName` renders an unnamed address as the empty string, so
a `some ""` rename could alias an absent name). -/
theorem napps_idem (auto : String → Bool) :
    ∀ (l : List NOp), (∀ nv, NOp.guard nv ∈ l → nv ≠ some ("")) →
      ∀ (v : Option String),
        napps auto l (napps auto l v) = napps auto l v
  | [], _, _ => rfl
  | NOp.uncond nv :: rest, hne, v => by
      have hr : ∀ nv2, NOp.guard nv2 ∈ rest → nv2 ≠ some ("") :=
        fun nv2 hm => hne nv2 (List.mem_cons_of_mem _ hm)
      rw [napps_cons, napps_cons]
      rw [show napp auto (NOp.uncond nv) v = nv from rfl]
      rw [show napp auto (NOp.uncond nv) (napps auto rest nv) = nv from rfl]
  | NOp.guard nv :: rest, hne, v => by
      have hr : ∀ nv2, NOp.guard nv2 ∈ rest → nv2 ≠ some ("") :=
        fun nv2 hm => hne nv2 (List.mem_cons_of_mem _ hm)
      rw [napps_cons, napps_cons]
      cases hfv : nfire auto nv v with
      | true =>
        rw [napp_guard_fire auto hfv]
        cases hfu : nfire auto nv (napps auto rest nv) with
        | true => rw [napp_guard_fire auto hfu]
        | false =>
          rw [napp_guard_skip auto hfu]
          exact napps_idem auto rest hr nv
      | false =>
        rw [napp_guard_skip auto hfv]
        cases hfu : nfire auto nv (napps auto rest v) with
        | false =>
          rw [napp_guard_skip auto hfu]
          exact napps_idem auto rest hr v
        | true =>
          rw [napp_guard_fire auto hfu]
          -- remaining goal: replay after a late fire resynchronises
          rcases Bool.and_eq_false_iff.mp
            (show ((nv != some (v.getD (""))) &&
              auto (v.getD (""))) = false from hfv) with hA | hB
          · -- the guard failed on v because nv equals the current name
            have hnv : nv = some (v.getD ("")) := by
              simpa using hA
            cases v with
            | some x => rw [show nv = some x by simpa using hnv]
            | none =>
              exact absurd (by simpa using hnv)
                (hne nv (List.mem_cons_self _ _))
          · -- the guard failed on v because v is not auto-generated
            by_cases hal : ∃ nv2, NOp.uncond nv2 ∈ rest
            · exact napps_resync auto rest hal nv v
            · exfalso
              have hnof : napps auto rest v = v :=
                napps_nofire auto rest
                  (fun nv2 hmem => hal ⟨nv2, hmem⟩) v hB
              rw [hnof] at hfu
              rw [hfu] at hfv
              exact Bool.true_eq_false.mp hfv

/-- Fill-only comment write: set `c` only where no comment exists
(src 1057-1061). -/
def capp (c v : Option String) : Option String :=
  if c.isSome && v.isNone then c else v

def capps (l : List (Option String)) (v : Option String) : Option String :=
  l.foldl (fun v c => capp c v) v

theorem capps_cons (c : Option String) (l : List (Option String))
    (v : Option String) : capps (c :: l) v = capps l (capp c v) := rfl

/-- A present comment survives any sequence of fill-only writes. -/
theorem capps_keep : ∀ (l : List (Option String)) (v : Option String),
    v.isSome = true → capps l v = v
  | [], _, _ => rfl
  | c :: rest, v, hv => by
      have hstep : capp c v = v := by
        cases v with
        | none => cases hv
        | some x => simp [capp]
      rw [capps_cons, hstep]
      exact capps_keep rest v hv

theorem capps_idem : ∀ (l : List (Option String)) (v : Option String),
    capps l (capps l v) = capps l v
  | [], _ => rfl
  | c :: rest, v => by
      rw [capps_cons, capps_cons]
      cases hc : (c.isSome && v.isNone) with
      | true =>
        rw [show capp c v = c by simp [capp, hc]]
        have hcs : c.isSome = true := (Bool.and_eq_true_iff.mp hc).1
        have h1 : capps rest c = c := capps_keep rest c hcs
        rw [h1]
        rw [show capp c c = c by cases c with
          | none => cases hcs
          | some x => simp [capp]]
        rw [h1]
      | false =>
        rw [show capp c v = v by simp [capp, hc]]
        rcases Bool.and_eq_false_iff.mp hc with h1 | h2
        · have : capp c (capps rest v) = capps rest v := by
            simp [capp, h1]
          rw [this]
          exact capps_idem rest v
        · have hvs : v.isSome = true := by
            cases v with
            | none => simp at h2
            | some x => rfl
          rw [capps_keep rest v hvs]
          rw [show capp c v = v by simp [capp, hc]]
          exact capps_keep rest v hvs

/-- Unconditional conditional write: `papp (some x)` overwrites,
`papp none` is the identity (used for the pseudocode comments of
src 1063-1071 and the function-level writes of src 1242-1249). -/
def papp {α : Type} (w v : Option α) : Option α :=
  match w with
  | some x => some x
  | none => v

def papps {α : Type} (l : List (Option α)) (v : Option α) : Option α :=
  l.foldl (fun v w => papp w v) v

theorem papps_cons {α : Type} (w : Option α) (l : List (Option α))
    (v : Option α) : papps (w :: l) v = papps l (papp w v) := rfl

theorem papps_resync {α : Type} :
    ∀ (l : List (Option α)), (∃ x, some x ∈ l) →
      ∀ (v y : Option α), papps l v = papps l y
  | [], h, _, _ => absurd h.choose_spec (List.not_mem_nil _)
  | some x :: rest, _, v, y => by
      rw [papps_cons, papps_cons]
      rfl
  | none :: rest, h, v, y => by
      rcases h with ⟨x, hmem⟩
      rcases List.mem_cons.mp hmem with h1 | h2
      · cases h1
      · rw [papps_cons, papps_cons]
        exact papps_resync rest ⟨x, h2⟩ _ _

theorem papps_all_none {α : Type} :
    ∀ (l : List (Option α)), (∀ w ∈ l, w = none) →
      ∀ (v : Option α), papps l v = v
  | [], _, _ => rfl
  | w :: rest, hall, v => by
      rw [papps_cons]
      rw [show papp w v = v by
        rw [hall w (List.mem_cons_self _ _)]
        rfl]
      exact papps_all_none rest
        (fun w2 hm => hall w2 (List.mem_cons_of_mem _ hm)) v

theorem papps_idem {α : Type} (l : List (Option α)) (v : Option α) :
    papps l (papps l v) = papps l v := by
  by_cases h : ∃ x, some x ∈ l
  · exact papps_resync l h _ _
  · have hall : ∀ w ∈ l, w = none := by
      intro w hw
      cases w with
      | none => rfl
      | some x => exact absurd ⟨x, hw⟩ h
    rw [papps_all_none l hall, papps_all_none l hall]

/-- The pseudocode-comment write performed by one call (present only when
the row has a pseudocode comment and the decompiler succeeds). -/
def pscWrite (h : IHost) (d2 : InsData) (ea1 : Int) :
    Option (Option Int × String) :=
  match d2.pcmt with
  | some c => if h.decompOk ea1 then some (d2.itp, c) else none
  | none => none

/-- The statically-determined rename site of one `import_instruction`
call: target address and rename kind.  It depends only on the host data
(references, offset flags, name snapshot), never on the mutable state. -/
def nmSite (h : IHost) (d1 d2 : InsData) : Option (Int × NOp) :=
  let ea1 := h.base + d1.ea
  match h.drefs ea1 with
  | t :: _ =>
    if h.snapshot t then some (t, .guard d2.nm)
    else
      some ((if h.isOffAll t then (h.drefs t).headD t else t),
        .uncond d2.nm)
  | [] =>
    match (if h.crefs0 ea1 ≠ [] then h.crefs0 ea1 else h.crefs1 ea1) with
    | c :: _ => some (c, .guard d2.nm)
    | [] => none

theorem iiC1_cmt0 (h : IHost) (d1 d2 : InsData) (s : IState) (a : Int) :
    (iiC1 h d1 d2 s).cmt0 a =
      if a = h.base + d1.ea then capp d2.cmt1 (s.cmt0 a) else s.cmt0 a := by
  unfold iiC1
  by_cases hc : (d2.cmt1.isSome && (s.cmt0 (h.base + d1.ea)).isNone) = true
  · rw [if_pos hc]
    by_cases ha : a = h.base + d1.ea
    · subst ha
      simp [upd, capp, hc]
    · simp [upd, capp, ha]
  · rw [if_neg hc]
    by_cases ha : a = h.base + d1.ea
    · subst ha
      simp [capp, hc]
    · simp [ha]

theorem iiC1_others (h : IHost) (d1 d2 : InsData) (s : IState) :
    (iiC1 h d1 d2 s).cmt1 = s.cmt1 ∧ (iiC1 h d1 d2 s).psc = s.psc ∧
    (iiC1 h d1 d2 s).nm = s.nm ∧ (iiC1 h d1 d2 s).typ = s.typ ∧
    (iiC1 h d1 d2 s).fcmt = s.fcmt ∧
    (iiC1 h d1 d2 s).fflags = s.fflags := by
  unfold iiC1
  split <;> exact ⟨rfl, rfl, rfl, rfl, rfl, rfl⟩

theorem iiC2_cmt1 (h : IHost) (d1 d2 : InsData) (s : IState) (a : Int) :
    (iiC2 h d1 d2 s).cmt1 a =
      if a = h.base + d1.ea then capp d2.cmt2 (s.cmt1 a) else s.cmt1 a := by
  unfold iiC2
  by_cases hc : (d2.cmt2.isSome && (s.cmt1 (h.base + d1.ea)).isNone) = true
  · rw [if_pos hc]
    by_cases ha : a = h.base + d1.ea
    · subst ha
      simp [upd, capp, hc]
    · simp [upd, capp, ha]
  · rw [if_neg hc]
    by_cases ha : a = h.base + d1.ea
    · subst ha
      simp [capp, hc]
    · simp [ha]

theorem iiC2_others (h : IHost) (d1 d2 : InsData) (s : IState) :
    (iiC2 h d1 d2 s).cmt0 = s.cmt0 ∧ (iiC2 h d1 d2 s).psc = s.psc ∧
    (iiC2 h d1 d2 s).nm = s.nm ∧ (iiC2 h d1 d2 s).typ = s.typ ∧
    (iiC2 h d1 d2 s).fcmt = s.fcmt ∧
    (iiC2 h d1 d2 s).fflags = s.fflags := by
  unfold iiC2
  split <;> exact ⟨rfl, rfl, rfl, rfl, rfl, rfl⟩

theorem iiC3_psc (h : IHost) (d1 d2 : InsData) (s : IState) (a : Int) :
    (iiC3 h d1 d2 s).psc a =
      if a = h.base + d1.ea then
        papp (pscWrite h d2 (h.base + d1.ea)) (s.psc a)
      else s.psc a := by
  unfold iiC3 pscWrite
  cases hp : d2.pcmt with
  | none => simp [papp]
  | some c =>
    dsimp only
    by_cases hd : h.decompOk (h.base + d1.ea) = true
    · rw [if_pos hd, if_pos hd]
      by_cases ha : a = h.base + d1.ea
      · subst ha
        simp [upd, papp]
      · simp [upd, papp, ha]
    · rw [if_neg hd, if_neg hd]
      simp [papp]

theorem iiC3_others (h : IHost) (d1 d2 : InsData) (s : IState) :
    (iiC3 h d1 d2 s).cmt0 = s.cmt0 ∧ (iiC3 h d1 d2 s).cmt1 = s.cmt1 ∧
    (iiC3 h d1 d2 s).nm = s.nm ∧ (iiC3 h d1 d2 s).typ = s.typ ∧
    (iiC3 h d1 d2 s).fcmt = s.fcmt ∧
    (iiC3 h d1 d2 s).fflags = s.fflags := by
  unfold iiC3
  refine ⟨?_, ?_, ?_, ?_, ?_, ?_⟩ <;> (repeat' split) <;> rfl

theorem iiCmts_cmt0 (h : IHost) (d1 d2 : InsData) (s : IState) (a : Int) :
    (iiCmts h d1 d2 s).cmt0 a =
      if a = h.base + d1.ea then capp d2.cmt1 (s.cmt0 a) else s.cmt0 a := by
  unfold iiCmts
  rw [(iiC3_others h d1 d2 _).1, (iiC2_others h d1 d2 _).1]
  exact iiC1_cmt0 h d1 d2 s a

theorem iiCmts_cmt1 (h : IHost) (d1 d2 : InsData) (s : IState) (a : Int) :
    (iiCmts h d1 d2 s).cmt1 a =
      if a = h.base + d1.ea then capp d2.cmt2 (s.cmt1 a) else s.cmt1 a := by
  unfold iiCmts
  rw [(iiC3_others h d1 d2 _).2.1]
  rw [iiC2_cmt1 h d1 d2 _ a, (iiC1_others h d1 d2 s).1]

theorem iiCmts_psc (h : IHost) (d1 d2 : InsData) (s : IState) (a : Int) :
    (iiCmts h d1 d2 s).psc a =
      if a = h.base + d1.ea then
        papp (pscWrite h d2 (h.base + d1.ea)) (s.psc a)
      else s.psc a := by
  unfold iiCmts
  rw [iiC3_psc h d1 d2 _ a, (iiC2_others h d1 d2 _).2.1,
    (iiC1_others h d1 d2 s).2.1]

theorem iiCmts_nm (h : IHost) (d1 d2 : InsData) (s : IState) :
    (iiCmts h d1 d2 s).nm = s.nm := by
  unfold iiCmts
  rw [(iiC3_others h d1 d2 _).2.2.1, (iiC2_others h d1 d2 _).2.2.1,
    (iiC1_others h d1 d2 s).2.2.1]

theorem iiCmts_typ (h : IHost) (d1 d2 : InsData) (s : IState) :
    (iiCmts h d1 d2 s).typ = s.typ := by
  unfold iiCmts
  rw [(iiC3_others h d1 d2 _).2.2.2.1, (iiC2_others h d1 d2 _).2.2.2.1,
    (iiC1_others h d1 d2 s).2.2.2.1]

theorem iiCmts_fcmt (h : IHost) (d1 d2 : InsData) (s : IState) :
    (iiCmts h d1 d2 s).fcmt = s.fcmt := by
  unfold iiCmts
  rw [(iiC3_others h d1 d2 _).2.2.2.2.1, (iiC2_others h d1 d2 _).2.2.2.2.1,
    (iiC1_others h d1 d2 s).2.2.2.2.1]

theorem iiCmts_fflags (h : IHost) (d1 d2 : InsData) (s : IState) :
    (iiCmts h d1 d2 s).fflags = s.fflags := by
  unfold iiCmts
  rw [(iiC3_others h d1 d2 _).2.2.2.2.2, (iiC2_others h d1 d2 _).2.2.2.2.2,
    (iiC1_others h d1 d2 s).2.2.2.2.2]

theorem iiRename_nm (h : IHost) (d1 d2 : InsData) (s : IState) (a : Int) :
    (iiRename h d1 d2 s).nm a =
      match nmSite h d1 d2 with
      | some (t, o) => if a = t then napp h.autoGen o (s.nm t) else s.nm a
      | none => s.nm a := by
  unfold iiRename nmSite
  dsimp only
  cases hd : h.drefs (h.base + d1.ea) with
  | cons t rest =>
    dsimp only
    by_cases hs : h.snapshot t = true
    · rw [if_pos hs, if_pos hs]
      dsimp only
      by_cases hf : (d2.nm != some ((s.nm t).getD ("")) &&
          h.autoGen ((s.nm t).getD (""))) = true
      · rw [if_pos hf]
        by_cases ha : a = t
        · subst ha
          simp [upd, napp, nfire, hf]
        · simp [upd, napp, ha]
      · rw [if_neg hf]
        by_cases ha : a = t
        · subst ha
          simp [napp, nfire, hf]
        · simp [ha]
    · rw [if_neg hs, if_neg hs]
      dsimp only
      (repeat' split) <;> simp_all [upd, napp]
  | nil =>
    dsimp only
    cases hc : (if h.crefs0 (h.base + d1.ea) ≠ [] then
        h.crefs0 (h.base + d1.ea) else h.crefs1 (h.base + d1.ea)) with
    | nil => rfl
    | cons c rest2 =>
      dsimp only
      by_cases hf : (d2.nm != some ((s.nm c).getD ("")) &&
          h.autoGen ((s.nm c).getD (""))) = true
      · rw [if_pos hf]
        by_cases ha : a = c
        · subst ha
          (repeat' split) <;> simp_all [upd, napp, nfire]
        · (repeat' split) <;> simp_all [upd, napp, nfire]
      · rw [if_neg hf]
        by_cases ha : a = c
        · subst ha
          simp [napp, nfire, hf]
        · simp [ha]

theorem iiRename_others (h : IHost) (d1 d2 : InsData) (s : IState) :
    (iiRename h d1 d2 s).cmt0 = s.cmt0 ∧
    (iiRename h d1 d2 s).cmt1 = s.cmt1 ∧
    (iiRename h d1 d2 s).psc = s.psc ∧
    (iiRename h d1 d2 s).fcmt = s.fcmt ∧
    (iiRename h d1 d2 s).fflags = s.fflags := by
  unfold iiRename
  dsimp only
  refine ⟨?_, ?_, ?_, ?_, ?_⟩ <;> (repeat' split) <;> rfl

/-! Per-address characterization of a whole pair-list run: each component
of the state at an address evolves by folding the writes of the calls
that statically target that address. -/

def cmt0Ops (h : IHost) (ops : List (InsData × InsData)) (a : Int) :
    List (Option String) :=
  ops.filterMap (fun p =>
    if a = h.base + p.1.ea then some p.2.cmt1 else none)

def cmt1Ops (h : IHost) (ops : List (InsData × InsData)) (a : Int) :
    List (Option String) :=
  ops.filterMap (fun p =>
    if a = h.base + p.1.ea then some p.2.cmt2 else none)

def pscOps (h : IHost) (ops : List (InsData × InsData)) (a : Int) :
    List (Option (Option Int × String)) :=
  ops.filterMap (fun p =>
    if a = h.base + p.1.ea then
      some (pscWrite h p.2 (h.base + p.1.ea)) else none)

def nmOps (h : IHost) (ops : List (InsData × InsData)) (a : Int) :
    List NOp :=
  ops.filterMap (fun p =>
    match nmSite h p.1 p.2 with
    | some (t, o) => if a = t then some o else none
    | none => none)

theorem runOps_cons (h : IHost) (p : InsData × InsData)
    (ops : List (InsData × InsData)) (s : IState) :
    runOps h (p :: ops) s =
      runOps h ops (import_instruction h p.1 p.2 s) := rfl

theorem import_instruction_cmt0 (h : IHost) (d1 d2 : InsData)
    (s : IState) (a : Int) :
    (import_instruction h d1 d2 s).cmt0 a =
      if a = h.base + d1.ea then capp d2.cmt1 (s.cmt0 a) else s.cmt0 a := by
  unfold import_instruction
  rw [congrFun (iiRename_others h d1 d2 _).1 a]
  exact iiCmts_cmt0 h d1 d2 s a

theorem import_instruction_cmt1 (h : IHost) (d1 d2 : InsData)
    (s : IState) (a : Int) :
    (import_instruction h d1 d2 s).cmt1 a =
      if a = h.base + d1.ea then capp d2.cmt2 (s.cmt1 a) else s.cmt1 a := by
  unfold import_instruction
  rw [congrFun (iiRename_others h d1 d2 _).2.1 a]
  exact iiCmts_cmt1 h d1 d2 s a

theorem import_instruction_psc (h : IHost) (d1 d2 : InsData)
    (s : IState) (a : Int) :
    (import_instruction h d1 d2 s).psc a =
      if a = h.base + d1.ea then
        papp (pscWrite h d2 (h.base + d1.ea)) (s.psc a)
      else s.psc a := by
  unfold import_instruction
  rw [congrFun (iiRename_others h d1 d2 _).2.2.1 a]
  exact iiCmts_psc h d1 d2 s a

theorem import_instruction_nm (h : IHost) (d1 d2 : InsData)
    (s : IState) (a : Int) :
    (import_instruction h d1 d2 s).nm a =
      match nmSite h d1 d2 with
      | some (t, o) => if a = t then napp h.autoGen o (s.nm t) else s.nm a
      | none => s.nm a := by
  unfold import_instruction
  rw [iiRename_nm h d1 d2 _ a, iiCmts_nm h d1 d2 s]

theorem import_instruction_fcmt (h : IHost) (d1 d2 : InsData)
    (s : IState) :
    (import_instruction h d1 d2 s).fcmt = s.fcmt := by
  unfold import_instruction
  rw [(iiRename_others h d1 d2 _).2.2.2.1, iiCmts_fcmt h d1 d2 s]

theorem import_instruction_fflags (h : IHost) (d1 d2 : InsData)
    (s : IState) :
    (import_instruction h d1 d2 s).fflags = s.fflags := by
  unfold import_instruction
  rw [(iiRename_others h d1 d2 _).2.2.2.2, iiCmts_fflags h d1 d2 s]

theorem runOps_cmt0 (h : IHost) :
    ∀ (ops : List (InsData × InsData)) (s : IState) (a : Int),
      (runOps h ops s).cmt0 a = capps (cmt0Ops h ops a) (s.cmt0 a)
  | [], _, _ => rfl
  | p :: ops, s, a => by
    rw [runOps_cons, runOps_cmt0 h ops _ a,
      import_instruction_cmt0 h p.1 p.2 s a]
    by_cases ha : a = h.base + p.1.ea
    · rw [if_pos ha]
      rw [show cmt0Ops h (p :: ops) a = p.2.cmt1 :: cmt0Ops h ops a by
        unfold cmt0Ops
        rw [List.filterMap_cons]
        simp [ha]]
      rw [capps_cons]
    · rw [if_neg ha]
      rw [show cmt0Ops h (p :: ops) a = cmt0Ops h ops a by
        unfold cmt0Ops
        rw [List.filterMap_cons]
        simp [ha]]

theorem runOps_cmt1 (h : IHost) :
    ∀ (ops : List (InsData × InsData)) (s : IState) (a : Int),
      (runOps h ops s).cmt1 a = capps (cmt1Ops h ops a) (s.cmt1 a)
  | [], _, _ => rfl
  | p :: ops, s, a => by
    rw [runOps_cons, runOps_cmt1 h ops _ a,
      import_instruction_cmt1 h p.1 p.2 s a]
    by_cases ha : a = h.base + p.1.ea
    · rw [if_pos ha]
      rw [show cmt1Ops h (p :: ops) a = p.2.cmt2 :: cmt1Ops h ops a by
        unfold cmt1Ops
        rw [List.filterMap_cons]
        simp [ha]]
      rw [capps_cons]
    · rw [if_neg ha]
      rw [show cmt1Ops h (p :: ops) a = cmt1Ops h ops a by
        unfold cmt1Ops
        rw [List.filterMap_cons]
        simp [ha]]

theorem runOps_psc (h : IHost) :
    ∀ (ops : List (InsData × InsData)) (s : IState) (a : Int),
      (runOps h ops s).psc a = papps (pscOps h ops a) (s.psc a)
  | [], _, _ => rfl
  | p :: ops, s, a => by
    rw [runOps_cons, runOps_psc h ops _ a,
      import_instruction_psc h p.1 p.2 s a]
    by_cases ha : a = h.base + p.1.ea
    · rw [if_pos ha]
      rw [show pscOps h (p :: ops) a =
          pscWrite h p.2 (h.base + p.1.ea) :: pscOps h ops a by
        unfold pscOps
        rw [List.filterMap_cons]
        simp [ha]]
      rw [papps_cons]
    · rw [if_neg ha]
      rw [show pscOps h (p :: ops) a = pscOps h ops a by
        unfold pscOps
        rw [List.filterMap_cons]
        simp [ha]]

theorem runOps_nm (h : IHost) :
    ∀ (ops : List (InsData × InsData)) (s : IState) (a : Int),
      (runOps h ops s).nm a = napps h.autoGen (nmOps h ops a) (s.nm a)
  | [], _, _ => rfl
  | p :: ops, s, a => by
    rw [runOps_cons, runOps_nm h ops _ a,
      import_instruction_nm h p.1 p.2 s a]
    cases hsite : nmSite h p.1 p.2 with
    | none =>
      dsimp only
      rw [show nmOps h (p :: ops) a = nmOps h ops a by
        unfold nmOps
        rw [List.filterMap_cons]
        simp [hsite]]
    | some pr =>
      obtain ⟨t, o⟩ := pr
      dsimp only
      by_cases ha : a = t
      · subst ha
        rw [if_pos rfl]
        rw [show nmOps h (p :: ops) a = o :: nmOps h ops a by
          unfold nmOps
          rw [List.filterMap_cons]
          simp [hsite]]
        rw [napps_cons]
      · rw [if_neg ha]
        rw [show nmOps h (p :: ops) a = nmOps h ops a by
          unfold nmOps
          rw [List.filterMap_cons]
          simp [hsite, ha]]

theorem runOps_fcmt (h : IHost) :
    ∀ (ops : List (InsData × InsData)) (s : IState),
      (runOps h ops s).fcmt = s.fcmt
  | [], _ => rfl
  | p :: ops, s => by
    rw [runOps_cons, runOps_fcmt h ops _,
      import_instruction_fcmt h p.1 p.2 s]

theorem runOps_fflags (h : IHost) :
    ∀ (ops : List (InsData × InsData)) (s : IState),
      (runOps h ops s).fflags = s.fflags
  | [], _ => rfl
  | p :: ops, s => by
    rw [runOps_cons, runOps_fflags h ops _,
      import_instruction_fflags h p.1 p.2 s]

theorem papp_idem {α : Type} (w v : Option α) :
    papp w (papp w v) = papp w v := by
  cases w <;> rfl

/-- Host-static conditional write of a whole component value: `some x`
writes `x`, `none` leaves the value unchanged (the function-level writes
of `do_import_one` are of this shape). -/
def wapp {α : Type} (w : Option α) (v : α) : α :=
  match w with
  | some x => x
  | none => v

theorem wapp_idem {α : Type} (w : Option α) (v : α) :
    wapp w (wapp w v) = wapp w v := by
  cases w <;> rfl

/-- The (host-static) function-rename write of `do_import_one`. -/
def fnWrite (h : IHost) (r : DiffFuncRow) (ea1 : Int) (force : Bool) :
    Option (Option String) :=
  if (!(r.mangled.startsWith ("sub_"))) || force then
    ((makeNameSeq r.mangled).find? (fun n => h.mkNameOk ea1 n)).map some
  else none

/-- The function-comment write of `do_import_one`. -/
def fcWrite (r : DiffFuncRow) : Option (Option String) :=
  match r.comment with
  | some c => if c ≠ ("") then some (some c) else none
  | none => none

/-- The function-flags write of `do_import_one`. -/
def ffWrite (r : DiffFuncRow) : Option (Option Int) :=
  match r.fflags with
  | some fl => some (some fl)
  | none => none

theorem funcLevel_nm (h : IHost) (r : DiffFuncRow) (ea1 : Int)
    (force : Bool) (s : IState) (a : Int) :
    (funcLevelImport h r ea1 force s).nm a =
      if a = ea1 then wapp (fnWrite h r ea1 force) (s.nm a)
      else s.nm a := by
  unfold funcLevelImport fnWrite
  by_cases hb : ((!(r.mangled.startsWith ("sub_"))) || force) = true
  · rw [if_pos hb, if_pos hb]
    cases hf : (makeNameSeq r.mangled).find? (fun n => h.mkNameOk ea1 n) with
    | none =>
      dsimp only [Option.map]
      (repeat' split) <;> rfl
    | some n =>
      (repeat' split) <;> simp_all [wapp, upd]
  · rw [if_neg hb, if_neg hb]
    (repeat' split) <;> rfl

theorem funcLevel_cmts (h : IHost) (r : DiffFuncRow) (ea1 : Int)
    (force : Bool) (s : IState) :
    (funcLevelImport h r ea1 force s).cmt0 = s.cmt0 ∧
    (funcLevelImport h r ea1 force s).cmt1 = s.cmt1 ∧
    (funcLevelImport h r ea1 force s).psc = s.psc := by
  unfold funcLevelImport
  refine ⟨?_, ?_, ?_⟩ <;> (repeat' split) <;> rfl

theorem funcLevel_fcmt (h : IHost) (r : DiffFuncRow) (ea1 : Int)
    (force : Bool) (s : IState) (a : Int) :
    (funcLevelImport h r ea1 force s).fcmt a =
      if a = ea1 then wapp (fcWrite r) (s.fcmt a) else s.fcmt a := by
  unfold funcLevelImport fcWrite
  (repeat' split) <;> first | rfl | simp_all [wapp, upd]

theorem funcLevel_fflags (h : IHost) (r : DiffFuncRow) (ea1 : Int)
    (force : Bool) (s : IState) (a : Int) :
    (funcLevelImport h r ea1 force s).fflags a =
      if a = ea1 then wapp (ffWrite r) (s.fflags a) else s.fflags a := by
  unfold funcLevelImport ffWrite
  (repeat' split) <;> first | rfl | simp_all [wapp, upd]

theorem nmSite_val (h : IHost) (d1 d2 : InsData) (t : Int) (o : NOp)
    (hs : nmSite h d1 d2 = some (t, o)) :
    o = NOp.guard d2.nm ∨ o = NOp.uncond d2.nm := by
  unfold nmSite at hs
  dsimp only at hs
  repeat' split at hs
  all_goals simp_all

theorem mem_nmOps (h : IHost) (ops : List (InsData × InsData)) (a : Int)
    (o : NOp) (hm : o ∈ nmOps h ops a) :
    ∃ p ∈ ops, nmSite h p.1 p.2 = some (a, o) := by
  unfold nmOps at hm
  rcases List.mem_filterMap.mp hm with ⟨p, hp, hmatch⟩
  refine ⟨p, hp, ?_⟩
  cases hsite : nmSite h p.1 p.2 with
  | none => rw [hsite] at hmatch; cases hmatch
  | some pr =>
    obtain ⟨t, o2⟩ := pr
    rw [hsite] at hmatch
    by_cases ha : a = t
    · subst ha
      simp at hmatch
      rw [hmatch]
    · simp [ha] at hmatch

theorem do_import_one_some (h : IHost) (r : DiffFuncRow) (ea1 : Int)
    (force : Bool) (ops : List (InsData × InsData)) (s : IState) :
    do_import_one h (some r) ea1 force ops s =
      runOps h ops (funcLevelImport h r ea1 force s) := rfl

/-- C6, amended: re-running the diff importer on the same matched pair
leaves every comment, pseudocode comment, name, function comment and
function flag exactly as after the first run; an instruction-level
comment is set only where no comment exists; and a referenced global or
callee is renamed only when its current name is an auto-generated
placeholder or the rename comes through the snapshot-miss
(offset-redirect) branch, which renames its redirected target
unconditionally — so, with that branch excluded, a non-placeholder name
is never changed.  The hypothesis `hne` says that no imported name is
the empty string (database names are non-empty; the empty string is how
`GetTrueName` renders an unnamed address). -/
theorem c6_amended (h : IHost) (row : Option DiffFuncRow) (ea1 : Int)
    (force : Bool) (ops : List (InsData × InsData)) (s : IState)
    (hne : ∀ p ∈ ops, p.2.nm ≠ some ("")) :
    (∀ a, (s.cmt0 a).isSome = true →
      (do_import_one h row ea1 force ops s).cmt0 a = s.cmt0 a) ∧
    (∀ a, (s.cmt1 a).isSome = true →
      (do_import_one h row ea1 force ops s).cmt1 a = s.cmt1 a) ∧
    (∀ a, h.autoGen ((s.nm a).getD ("")) = false →
      (∀ p ∈ ops, ∀ nv, nmSite h p.1 p.2 ≠ some (a, NOp.uncond nv)) →
      (runOps h ops s).nm a = s.nm a) ∧
    ((do_import_one h row ea1 force ops
        (do_import_one h row ea1 force ops s)).cmt0 =
      (do_import_one h row ea1 force ops s).cmt0 ∧
     (do_import_one h row ea1 force ops
        (do_import_one h row ea1 force ops s)).cmt1 =
      (do_import_one h row ea1 force ops s).cmt1 ∧
     (do_import_one h row ea1 force ops
        (do_import_one h row ea1 force ops s)).psc =
      (do_import_one h row ea1 force ops s).psc ∧
     (do_import_one h row ea1 force ops
        (do_import_one h row ea1 force ops s)).nm =
      (do_import_one h row ea1 force ops s).nm ∧
     (do_import_one h row ea1 force ops
        (do_import_one h row ea1 force ops s)).fcmt =
      (do_import_one h row ea1 force ops s).fcmt ∧
     (do_import_one h row ea1 force ops
        (do_import_one h row ea1 force ops s)).fflags =
      (do_import_one h row ea1 force ops s).fflags) := by
  have hg : ∀ a nv, NOp.guard nv ∈ nmOps h ops a → nv ≠ some ("") := by
    intro a nv hm
    rcases mem_nmOps h ops a _ hm with ⟨p, hp, hsite⟩
    rcases nmSite_val h p.1 p.2 a _ hsite with hq | hq
    · rw [show nv = p.2.nm by injection hq]
      exact hne p hp
    · cases hq
  have hprotect : ∀ a, h.autoGen ((s.nm a).getD ("")) = false →
      (∀ p ∈ ops, ∀ nv, nmSite h p.1 p.2 ≠ some (a, NOp.uncond nv)) →
      (runOps h ops s).nm a = s.nm a := by
    intro a hauto hnu
    rw [runOps_nm h ops s a]
    refine napps_nofire h.autoGen (nmOps h ops a) ?_ (s.nm a) hauto
    intro nv hmem
    rcases mem_nmOps h ops a _ hmem with ⟨p, hp, hsite⟩
    exact hnu p hp nv hsite
  cases row with
  | none =>
    refine ⟨fun a _ => rfl, fun a _ => rfl, hprotect,
      rfl, rfl, rfl, rfl, rfl, rfl⟩
  | some r =>
    simp only [do_import_one_some]
    constructor
    · intro a hsome
      rw [runOps_cmt0 h ops _ a, congrFun (funcLevel_cmts h r ea1 force s).1 a]
      exact capps_keep _ _ hsome
    constructor
    · intro a hsome
      rw [runOps_cmt1 h ops _ a,
        congrFun (funcLevel_cmts h r ea1 force s).2.1 a]
      exact capps_keep _ _ hsome
    refine ⟨hprotect, ?_, ?_, ?_, ?_, ?_, ?_⟩
    · -- cmt0 idempotence
      funext a
      rw [runOps_cmt0 h ops _ a, runOps_cmt0 h ops _ a,
        congrFun (funcLevel_cmts h r ea1 force s).1 a,
        congrFun (funcLevel_cmts h r ea1 force _).1 a,
        runOps_cmt0 h ops _ a,
        congrFun (funcLevel_cmts h r ea1 force s).1 a]
      exact capps_idem _ _
    · -- cmt1 idempotence
      funext a
      rw [runOps_cmt1 h ops _ a, runOps_cmt1 h ops _ a,
        congrFun (funcLevel_cmts h r ea1 force s).2.1 a,
        congrFun (funcLevel_cmts h r ea1 force _).2.1 a,
        runOps_cmt1 h ops _ a,
        congrFun (funcLevel_cmts h r ea1 force s).2.1 a]
      exact capps_idem _ _
    · -- psc idempotence
      funext a
      rw [runOps_psc h ops _ a, runOps_psc h ops _ a,
        congrFun (funcLevel_cmts h r ea1 force s).2.2 a,
        congrFun (funcLevel_cmts h r ea1 force _).2.2 a,
        runOps_psc h ops _ a,
        congrFun (funcLevel_cmts h r ea1 force s).2.2 a]
      exact papps_idem _ _
    · -- nm idempotence
      funext a
      have hpass : ∀ st : IState,
          (runOps h ops (funcLevelImport h r ea1 force st)).nm a =
            napps h.autoGen (nmOps h ops a)
              (if a = ea1 then wapp (fnWrite h r ea1 force) (st.nm a)
               else st.nm a) := by
        intro st
        rw [runOps_nm h ops (funcLevelImport h r ea1 force st) a,
          funcLevel_nm h r ea1 force st a]
      rw [hpass, hpass]
      by_cases ha : a = ea1
      · simp only [if_pos ha]
        cases hw : fnWrite h r ea1 force with
        | some n => rfl
        | none => exact napps_idem h.autoGen (nmOps h ops a) (hg a) (s.nm a)
      · simp only [if_neg ha]
        exact napps_idem h.autoGen (nmOps h ops a) (hg a) (s.nm a)
    · -- function comment idempotence
      funext a
      have hpass : ∀ st : IState,
          (runOps h ops (funcLevelImport h r ea1 force st)).fcmt a =
            if a = ea1 then wapp (fcWrite r) (st.fcmt a) else st.fcmt a := by
        intro st
        rw [congrFun (runOps_fcmt h ops (funcLevelImport h r ea1 force st)) a,
          funcLevel_fcmt h r ea1 force st a]
      rw [hpass, hpass]
      by_cases ha : a = ea1
      · simp only [if_pos ha]
        exact wapp_idem _ _
      · simp only [if_neg ha]
    · -- function flags idempotence
      funext a
      have hpass : ∀ st : IState,
          (runOps h ops (funcLevelImport h r ea1 force st)).fflags a =
            if a = ea1 then wapp (ffWrite r) (st.fflags a)
            else st.fflags a := by
        intro st
        rw [congrFun (runOps_fflags h ops
            (funcLevelImport h r ea1 force st)) a,
          funcLevel_fflags h r ea1 force st a]
      rw [hpass, hpass]
      by_cases ha : a = ea1
      · simp only [if_pos ha]
        exact wapp_idem _ _
      · simp only [if_neg ha]

/-- Importer host for the C6 counterexample: the instruction at address
10 has a data reference to 20; 20 is not in the name snapshot and its
flags mark an offset operand, so the rename is redirected to the first
data reference of 20, the true global 30 — which does carry a
user-assigned (non-auto-generated) name. -/
def hC6 : IHost :=
  { base := 0,
    drefs := fun a =>
      if a = 10 then [ 20 ] else if a = 20 then [ 30 ] else [],
    crefs0 := fun _ => [],
    crefs1 := fun _ => [],
    isOffAll := fun a => a == 20,
    snapshot := fun a => a == 30,
    autoGen := fun _ => false,
    decompOk := fun _ => false,
    mkNameOk := fun _ _ => false }

def d1C6 : InsData :=
  { ea := 10, cmt1 := none, cmt2 := none, nm := none, ty := none,
    dis := none, pcmt := none, itp := none }

def d2C6 : InsData :=
  { ea := 110, cmt1 := none, cmt2 := none, nm := some ("imported_name"),
    ty := none, dis := none, pcmt := none, itp := none }

def s0C6 : IState :=
  { cmt0 := fun _ => none, cmt1 := fun _ => none, psc := fun _ => none,
    nm := fun a => if a = 30 then some ("user_global") else none,
    typ := fun _ => none, fcmt := fun _ => none, fflags := fun _ => none }

/-- C6, counterexample: the snapshot-miss branch of `import_instruction`
(src 1084-1091) redirects an offset operand to the referenced true
global and renames it unconditionally.  Here the global at 30 carries
the user-assigned, non-auto-generated name `user_global`, yet a
single import run overwrites it — refuting "a referenced global or callee is
renamed only when its current name is an auto-generated placeholder" and
"analyst-provided annotations are never erased". -/
theorem c6_counterexample :
    s0C6.nm 30 = some ("user_global") ∧
    hC6.autoGen ("user_global") = false ∧
    hC6.snapshot 30 = true ∧
    (import_instruction hC6 d1C6 d2C6 s0C6).nm 30 =
      some ("imported_name") :=
  ⟨rfl, rfl, rfl, rfl⟩

/-- Witness data for `c6_amended`: one propagated instruction pair with
a comment and a name, on a host whose auto-generated names are the
`sub_` ones. -/
def hC6w : IHost :=
  { base := 0,
    drefs := fun _ => [],
    crefs0 := fun a => if a = 10 then [ 40 ] else [],
    crefs1 := fun _ => [],
    isOffAll := fun _ => false,
    snapshot := fun _ => false,
    autoGen := fun s => s.startsWith ("sub_"),
    decompOk := fun _ => true,
    mkNameOk := fun _ _ => true }

def opsC6w : List (InsData × InsData) :=
  [ ({ ea := 10, cmt1 := none, cmt2 := none, nm := none, ty := none,
       dis := none, pcmt := none, itp := none },
     { ea := 210, cmt1 := some ("imported comment"), cmt2 := none,
       nm := some ("imported_callee"), ty := some ("int f(int)"),
       dis := none, pcmt := some ("pseudo comment"), itp := some 2 }) ]

def rowC6w : DiffFuncRow :=
  { proto := some ("int g(int)"), comment := some ("function comment"),
    mangled := ("renamed_func"), fflags := some 1024 }

def sC6w : IState :=
  { cmt0 := fun a => if a = 10 then some ("analyst comment") else none,
    cmt1 := fun _ => none, psc := fun _ => none,
    nm := fun a => if a = 40 then some ("sub_40") else none,
    typ := fun _ => none, fcmt := fun _ => none, fflags := fun _ => none }

/-- Witness for `c6_amended` at a concrete host, pair list and state. -/
theorem c6_amended_witness :
    (∀ p ∈ opsC6w, p.2.nm ≠ some ("")) ∧
    ((∀ a, (sC6w.cmt0 a).isSome = true →
        (do_import_one hC6w (some rowC6w) 5 false opsC6w sC6w).cmt0 a =
          sC6w.cmt0 a) ∧
     (do_import_one hC6w (some rowC6w) 5 false opsC6w
        (do_import_one hC6w (some rowC6w) 5 false opsC6w sC6w)).nm =
      (do_import_one hC6w (some rowC6w) 5 false opsC6w sC6w).nm) :=
  ⟨by decide,
    (c6_amended hC6w (some rowC6w) 5 false opsC6w sC6w (by decide)).1,
    (c6_amended hC6w (some rowC6w) 5 false opsC6w sC6w
      (by decide)).2.2.2.2.2.2.1⟩

/-! ## Part II: the per-function exporter and the resumable pipeline

Source: `src/diaphora_ida.py`, `read_function` (1464-1851),
`constant_filter`/`is_constant` (1431-1462), `get_last_crash_func`
(671-683), `recalculate_primes` (685-702), `do_export` (704-777),
`export` (779-809).

Fields of the function record that are pure presentation artifacts with
no bearing on any claim are elided and documented here: the `switches`
list (src 1643-1666), the pseudocode hash triple and
`pseudocode_primes` (src 1789-1797), `function_hash` (src 1601, 1777)
and `clean_pseudo` (src 1805).  `md5` digests are modelled as the raw
joined byte sequences. -/

/-- The IDA bad-address sentinel (64-bit kernels). -/
def BADADDR : Nat := 2 ^ 64 - 1

/-- `FUNC_LIB` function flag. -/
def FUNC_LIB : Nat := 4

/-- `FUNC_THUNK` function flag. -/
def FUNC_THUNK : Nat := 128

/-- `flags & mask` as tested by the source.  `GetFunctionFlags` returns
`-1` on failure; python's bitwise AND of `-1` with a positive mask is
the mask itself, hence nonzero. -/
def flagTest (flags : Int) (mask : Nat) : Bool :=
  if flags < 0 then true else (flags.toNat &&& mask) != 0

/-- One operand of a decoded instruction: whether its type is `o_imm`,
whether its type is one of `o_mem/o_imm/o_far/o_near/o_displ`
(src 1571-1574), its immediate value and its `offb`. -/
structure Oper where
  isImm : Bool
  memLike : Bool
  value : Nat
  offb : Nat

deriving instance DecidableEq, Repr for Oper

def defaultOper : Oper :=
  { isImm := false, memLike := false, value := 0, offb := 0 }

/-- One instruction as enumerated by `Heads`, with the host answers the
loop body queries baked in: mnemonic, disassembly text, `ItemSize`, the
raw `decode_insn` size, the operands, data references, code references
of kind 0, the two `GetOperandValue` results, and the two repeatable
comments. -/
structure Insn where
  addr : Nat
  mnem : String
  disasm : String
  itemSize : Nat
  decodedSize : Int
  ops : List Oper
  drefs : List Nat
  crefs0 : List Nat
  opValue0 : Int
  opValue1 : Int
  cmt0 : Option String
  cmt1 : Option String

deriving instance DecidableEq, Repr for Insn

/-- A basic block as seen through a successor/predecessor iterator: the
loop bodies only read `id`, `startEA` and `endEA` of those blocks. -/
structure BBRef where
  bid : Nat
  startEA : Nat
  endEA : Nat

deriving instance DecidableEq, Repr for BBRef

/-- A basic block of `FlowChart`, with its instruction stream and its
successor and predecessor blocks. -/
structure BBlock where
  bid : Nat
  startEA : Nat
  endEA : Nat
  insns : List Insn
  succs : List BBRef
  preds : List BBRef

deriving instance DecidableEq, Repr for BBlock

/-- Modelled from the spec: the combined result of
`strongly_connected_components(bb_relations)` and
`robust_topological_sort(bb_topological)` from `others/tarjan_sort.py`,
which is part of the repository but not under `src/`.  Per the spec the
SCCs are "groups of mutually reachable blocks" (given as lists of
`bb_relations` keys) and the topological order is "a DAG-level ordering
of the condensed graph" (given as groups of `bb_topological` indices);
`none` models the recursion failure the spec requires to degrade
gracefully ("on any internal failure ... the SCC list becomes empty,
topological order becomes undefined/null"). -/
structure TarjanOut where
  sccs : List (List Int)
  topo : List (List Nat)

deriving instance DecidableEq, Repr for TarjanOut

/-- A numeric or string constant collected in the `constants` list
(src 1578-1590 mixes `oper.value` integers and `GetString` strings). -/
inductive PyConst where
  | int : Nat → PyConst
  | str : String → PyConst

deriving instance DecidableEq, Repr for PyConst

/-- One row of `basic_blocks_data` (src 1640-1641):
`[x - image_base, mnem, disasm, ins_cmt1, ins_cmt2, tmp_name, tmp_type]`. -/
structure InsRow where
  addr : Int
  mnem : String
  disasm : String
  cmt0 : Option String
  cmt1 : Option String
  opname : Option String
  optype : Option String

deriving instance DecidableEq, Repr for InsRow

/-- A 5-tuple of the MD-index computation (src 1813-1820):
`(bb_topo_order[bb_topo_num[src]], in(src), out(src), in(dst), out(dst))`. -/
structure MDTuple where
  z0 : Nat
  z1 : Nat
  z2 : Nat
  z3 : Nat
  z4 : Nat

deriving instance DecidableEq, Repr for MDTuple

/-- Insertion-ordered association list, the model of a python dict.  The
code never relies on dict iteration order (the only iterated dict,
`assembly`, is sorted by key first), so insertion order is a safe
refinement of CPython 2.7 hash order. -/
abbrev Dict (α β : Type) : Type := List (α × β)

def dnil {α β : Type} : Dict α β := []

def dget {α β : Type} [BEq α] (d : Dict α β) (k : α) : Option β :=
  (List.find? (fun p => p.1 == k) d).map (fun p => p.2)

def dset {α β : Type} [BEq α] (d : Dict α β) (k : α) (v : β) : Dict α β :=
  if (List.find? (fun p => p.1 == k) d).isSome then
    List.map (fun p => if p.1 == k then (k, v) else p) d
  else d ++ [ (k, v) ]

def dhas {α β : Type} [BEq α] (d : Dict α β) (k : α) : Bool :=
  (List.find? (fun p => p.1 == k) d).isSome

def dkeys {α β : Type} (d : Dict α β) : List α := List.map (fun p => p.1) d

def dlen {α β : Type} (d : Dict α β) : Nat := List.length d

/-- The function record built by `read_function` (the tuple of src
1834-1844), as a named structure.  The `md_index` value is represented
by the list of 5-tuples the code sums over (`mdTuples`), with the
real-valued sum available as `FuncRecord.md_index`; `prime` is the
prime number itself or the fallback `0` (src 1769-1773). -/
structure FuncRecord where
  name : String
  nodes : Nat
  edges : Nat
  indegree : Nat
  outdegree : Nat
  size : Nat
  instructions : Nat
  mnems : List String
  names : List String
  proto : Option String
  cc : Int
  primeVal : Nat
  f : Nat
  comment : Option String
  true_name : String
  bytes_hash : List (List Nat)
  pseudo : Option String
  pseudo_lines : Nat
  function_flags : Int
  asm : String
  proto2 : Option String
  strongly_connected_size : Nat
  loops : Nat
  rva : Int
  bb_topological : Option (List (List Nat))
  strongly_connected_spp : Nat
  clean_assembly : String
  mnemonics_spp : Nat
  bytes_sum : Nat
  mdTuples : Option (List MDTuple)
  constants : List PyConst
  constants_size : Nat
  seg_rva : Int
  assembly_addrs : List Int
  kgh_hash : String
  callers : List Nat
  callees : List Nat
  basic_blocks_data : Dict Int (List InsRow)
  bb_relations : Dict Int (List Int)

/-- The real-valued MD-index of a record: the sum, over the stored
5-tuples, of the reciprocal square root of
`z0 + z1*sqrt 2 + z2*sqrt 3 + z3*sqrt 5 + z4*sqrt 7` (src 1821-1826,
with `decimal.Decimal` arithmetic idealized as exact real arithmetic);
`0` when the topological step failed. -/
noncomputable def mdIndexValue (ts : List MDTuple) : Real :=
  ts.foldl (fun acc t =>
    acc + 1 / Real.sqrt ((t.z0 : Real) + (t.z1 : Real) * Real.sqrt 2 +
      (t.z2 : Real) * Real.sqrt 3 + (t.z3 : Real) * Real.sqrt 5 +
      (t.z4 : Real) * Real.sqrt 7)) 0

noncomputable def FuncRecord.md_index (r : FuncRecord) : Real :=
  match r.mdTuples with
  | some ts => mdIndexValue ts
  | none => 0

/-- The per-project policy hook (`self.hooks`):
`before_export_function` and `after_export_function`.  Modelled from the
spec: the dictionary round-trip through
`create_function_dictionary`/`get_function_from_dictionary` is the
identity on the record, so `after` is a total record transform. -/
structure Hooks where
  before : Nat → String → Bool
  after : FuncRecord → FuncRecord

/-- The IDA host environment of the exporter: every IDA API call made by
`read_function`/`do_export` is a field, answered by the environment.
`tarjanOf` is the per-function answer of the `others/tarjan_sort.py`
oracle; `kghOf` models `CKoretKaramitasHash().calculate`
(`jkutils/graph_hashes.py`, not under `src/`); `cleanAsm` models
`self.get_cmp_asm_lines` (`diaphora.py`, not under `src/`; its
`try/except` wrapper at src 1799-1802 is consequently never taken);
`guessType` models `self.guess_type` (src 1383-1394, a host query plus
decompiler with its own internal `try`). -/
structure Host where
  imageBase : Nat
  idaSubs : Bool
  excludeLibThunk : Bool
  hooks : Option Hooks
  funcNameOf : Nat → String
  demangle : String → Option String
  getFunc : Nat → Option Nat
  flowOf : Nat → List BBlock
  funcFlags : Nat → Int
  crefsTo0 : Nat → List Nat
  crefsTo1 : Nat → List Nat
  getManyBytes : Nat → Nat → Option (List Nat)
  rawInstructionList : List String
  namesMap : Int → Option String
  getType : Nat → Option String
  guessType : Nat → Option String
  getStr : Nat → Option String
  funcCmt : Nat → Option String
  tarjanOf : Nat → Option TarjanOut
  pseudoOf : Nat → Option (List String)
  kghOf : Nat → String
  cleanAsm : String → String
  segStart : Nat → Nat

/-- Modelled from the spec: `self.primes = primesbelow(4096)`
(`jkutils/factor.py`, part of the repository but not under `src/`), the
ascending list of all 564 primes below 4096, materialized. -/
def primesTable : List Nat :=
  [ 2, 3, 5, 7, 11, 13, 17, 19, 23, 29, 31, 37, 41, 43, 47, 53, 59,
    61, 67, 71, 73, 79, 83, 89, 97, 101, 103, 107, 109, 113, 127, 131,
    137, 139, 149, 151, 157, 163, 167, 173, 179, 181, 191, 193, 197,
    199, 211, 223, 227, 229, 233, 239, 241, 251, 257, 263, 269, 271,
    277, 281, 283, 293, 307, 311, 313, 317, 331, 337, 347, 349, 353,
    359, 367, 373, 379, 383, 389, 397, 401, 409, 419, 421, 431, 433,
    439, 443, 449, 457, 461, 463, 467, 479, 487, 491, 499, 503, 509,
    521, 523, 541, 547, 557, 563, 569, 571, 577, 587, 593, 599, 601,
    607, 613, 617, 619, 631, 641, 643, 647, 653, 659, 661, 673, 677,
    683, 691, 701, 709, 719, 727, 733, 739, 743, 751, 757, 761, 769,
    773, 787, 797, 809, 811, 821, 823, 827, 829, 839, 853, 857, 859,
    863, 877, 881, 883, 887, 907, 911, 919, 929, 937, 941, 947, 953,
    967, 971, 977, 983, 991, 997, 1009, 1013, 1019, 1021, 1031, 1033,
    1039, 1049, 1051, 1061, 1063, 1069, 1087, 1091, 1093, 1097, 1103,
    1109, 1117, 1123, 1129, 1151, 1153, 1163, 1171, 1181, 1187, 1193,
    1201, 1213, 1217, 1223, 1229, 1231, 1237, 1249, 1259, 1277, 1279,
    1283, 1289, 1291, 1297, 1301, 1303, 1307, 1319, 1321, 1327, 1361,
    1367, 1373, 1381, 1399, 1409, 1423, 1427, 1429, 1433, 1439, 1447,
    1451, 1453, 1459, 1471, 1481, 1483, 1487, 1489, 1493, 1499, 1511,
    1523, 1531, 1543, 1549, 1553, 1559, 1567, 1571, 1579, 1583, 1597,
    1601, 1607, 1609, 1613, 1619, 1621, 1627, 1637, 1657, 1663, 1667,
    1669, 1693, 1697, 1699, 1709, 1721, 1723, 1733, 1741, 1747, 1753,
    1759, 1777, 1783, 1787, 1789, 1801, 1811, 1823, 1831, 1847, 1861,
    1867, 1871, 1873, 1877, 1879, 1889, 1901, 1907, 1913, 1931, 1933,
    1949, 1951, 1973, 1979, 1987, 1993, 1997, 1999, 2003, 2011, 2017,
    2027, 2029, 2039, 2053, 2063, 2069, 2081, 2083, 2087, 2089, 2099,
    2111, 2113, 2129, 2131, 2137, 2141, 2143, 2153, 2161, 2179, 2203,
    2207, 2213, 2221, 2237, 2239, 2243, 2251, 2267, 2269, 2273, 2281,
    2287, 2293, 2297, 2309, 2311, 2333, 2339, 2341, 2347, 2351, 2357,
    2371, 2377, 2381, 2383, 2389, 2393, 2399, 2411, 2417, 2423, 2437,
    2441, 2447, 2459, 2467, 2473, 2477, 2503, 2521, 2531, 2539, 2543,
    2549, 2551, 2557, 2579, 2591, 2593, 2609, 2617, 2621, 2633, 2647,
    2657, 2659, 2663, 2671, 2677, 2683, 2687, 2689, 2693, 2699, 2707,
    2711, 2713, 2719, 2729, 2731, 2741, 2749, 2753, 2767, 2777, 2789,
    2791, 2797, 2801, 2803, 2819, 2833, 2837, 2843, 2851, 2857, 2861,
    2879, 2887, 2897, 2903, 2909, 2917, 2927, 2939, 2953, 2957, 2963,
    2969, 2971, 2999, 3001, 3011, 3019, 3023, 3037, 3041, 3049, 3061,
    3067, 3079, 3083, 3089, 3109, 3119, 3121, 3137, 3163, 3167, 3169,
    3181, 3187, 3191, 3203, 3209, 3217, 3221, 3229, 3251, 3253, 3257,
    3259, 3271, 3299, 3301, 3307, 3313, 3319, 3323, 3329, 3331, 3343,
    3347, 3359, 3361, 3371, 3373, 3389, 3391, 3407, 3413, 3433, 3449,
    3457, 3461, 3463, 3467, 3469, 3491, 3499, 3511, 3517, 3527, 3529,
    3533, 3539, 3541, 3547, 3557, 3559, 3571, 3581, 3583, 3593, 3607,
    3613, 3617, 3623, 3631, 3637, 3643, 3659, 3671, 3673, 3677, 3691,
    3697, 3701, 3709, 3719, 3727, 3733, 3739, 3761, 3767, 3769, 3779,
    3793, 3797, 3803, 3821, 3823, 3833, 3847, 3851, 3853, 3863, 3877,
    3881, 3889, 3907, 3911, 3917, 3919, 3923, 3929, 3931, 3943, 3947,
    3967, 3989, 4001, 4003, 4007, 4013, 4019, 4021, 4027, 4049, 4051,
    4057, 4073, 4079, 4091, 4093 ]

/-- Stable insertion into an ascending list: the new element goes
before the first element not strictly below it. -/
def insertAsc {α : Type} (lt : α → α → Bool) (a : α) : List α → List α
  | [] => [ a ]
  | b :: l => if lt b a then b :: insertAsc lt a l else a :: b :: l

/-- Python `list.sort()`: stable ascending sort (insertion sort). -/
def pySortBy {α : Type} (lt : α → α → Bool) : List α → List α
  | [] => []
  | a :: l => insertAsc lt a (pySortBy lt l)

/-- Lexicographic comparison of character lists by code point, the
order python's `str.sort()` uses on ASCII mnemonics. -/
def charListLt : List Char → List Char → Bool
  | [], [] => false
  | [], _ :: _ => true
  | _ :: _, [] => false
  | a :: as, b :: bs =>
    if a.toNat < b.toNat then true
    else if b.toNat < a.toNat then false
    else charListLt as bs

def strLt (a b : String) : Bool := charListLt a.data b.data

/-- `cpu_ins_list = GetInstructionList(); cpu_ins_list.sort()`
(src 1536-1537). -/
def sortedVocab (h : Host) : List String :=
  pySortBy strLt h.rawInstructionList

/-- `constant_filter`, src/diaphora_ida.py:1431-1454, verbatim: reject
small values, all-ones low-byte patterns, and single-bit values. -/
def constant_filter (value : Nat) : Bool :=
  -- no small values
  if value < 0x10000 then false
  else if (value &&& 0xFFFFFF00) = 0xFFFFFF00 ||
      (value &&& 0xFFFF00) = 0xFFFF00 ||
      (value &&& 0xFFFFFFFFFFFFFF00) = 0xFFFFFFFFFFFFFF00 ||
      (value &&& 0xFFFFFFFFFFFF00) = 0xFFFFFFFFFFFF00 then false
  -- no single bits set - mostly defines / flags
  else if (List.range 64).any (fun i => value = 1 <<< i) then false
  else true

/-- `is_constant`, src 1456-1462: an immediate whose value is also a
data reference of the instruction is not a constant. -/
def is_constant (oper : Oper) (drefs : List Nat) : Bool :=
  !(List.contains drefs oper.value)

/-- `"loc_%x:" % x` (src 1568). -/
def locLabel (x : Nat) : String :=
  "loc_" ++ String.mk (Nat.toDigits 16 x) ++ ":"

/-- Add to a python `set` modelled as a duplicate-free list. -/
def addUnique (l : List String) (s : String) : List String :=
  if s ∈ l then l else l ++ [ s ]

/-- The local mutable state of the basic-block extraction loop of
`read_function` (src 1505-1705).  `lastX` is the loop variable `x` of
the innermost `Heads` loop, which outlives the loop and is read at src
1828; `succBound` records whether the successor-loop variable
`succ_block` was ever bound, which the predecessor loop reads at src
1704. -/
structure ExtractSt where
  nodes : Nat
  edges : Nat
  size : Nat
  instructions : Nat
  mnems : List String
  namesSet : List String
  bytesHash : List (List Nat)
  bytesSum : Nat
  outdegree : Nat
  indegree : Nat
  assembly : Dict Int (List (Int × String))
  bbData : Dict Int (List InsRow)
  bbRelations : Dict Int (List Int)
  bbTopoNum : Dict Int Nat
  bbTopological : Dict Nat (List Nat)
  bbDegree : Dict Int (Nat × Nat)
  bbEdges : List (Int × Int)
  constants : List PyConst
  callees : List Nat
  mnemonics_spp : Nat
  lastX : Option Nat
  succBound : Bool

/-- The operand-name lookup of src 1604-1619: the second operand's
value (or the first when the second is `-1`) is looked up in the names
map; a demangleable name is cut at its first parenthesis. -/
def opName (h : Host) (x : Insn) : Option String :=
  let op_value : Int := if x.opValue1 = -1 then x.opValue0 else x.opValue1
  let tmp0 : Option String :=
    if op_value ≠ ((BADADDR : Nat) : Int) then h.namesMap op_value else none
  match tmp0 with
  | some tn =>
    match h.demangle tn with
    | some dm => some ((dm.splitOn ("(")).headD dm)
    | none => some tn
  | none => none

/-- The adjusted decoded size of src 1570-1576: `diaphora_decode`'s
size, minus each memory-like operand's `offb`, floored at 1. -/
def decodedSizeOf (x : Insn) : Int :=
  let op0 := x.ops.getD 0 defaultOper
  let op1 := x.ops.getD 1 defaultOper
  let ds0 : Int := x.decodedSize - (if op0.memLike then (op0.offb : Int) else 0)
  let ds1 : Int := ds0 - (if op1.memLike then (op1.offb : Int) else 0)
  if ds1 ≤ 0 then 1 else ds1

/-- The string-constant half of the constants loop (src 1583-1590),
run once per operand: a data reference outside any function whose
`GetString` succeeds contributes its string, deduplicated. -/
def strStep (h : Host) (st : ExtractSt) (dref : Nat) : ExtractSt :=
  if (h.getFunc dref).isNone then
    match h.getStr dref with
    | some sc =>
      if PyConst.str sc ∈ st.constants then st
      else { st with constants := st.constants ++ [ PyConst.str sc ] }
    | none => st
  else st

/-- One iteration of the operand loop (src 1578-1590): an immediate
operand passing `is_constant`/`constant_filter` contributes its value,
then the data references are scanned for string constants. -/
def constStep (h : Host) (x : Insn) (st : ExtractSt) (oper : Oper) :
    ExtractSt :=
  let st :=
    if oper.isImm && is_constant oper x.drefs && constant_filter oper.value then
      { st with constants := st.constants ++ [ PyConst.int oper.value ] }
    else st
  x.drefs.foldl (strStep h) st

/-- One iteration of the callee loop (src 1623-1627). -/
def calleeStep (h : Host) (fstart : Nat) (st : ExtractSt) (callee : Nat) :
    ExtractSt :=
  match h.getFunc callee with
  | some cf =>
    if cf ≠ fstart ∧ cf ∉ st.callees then
      { st with callees := st.callees ++ [ cf ] }
    else st
  | none => st

/-- The remainder of the instruction loop body after the
mnemonic-prime statement (src 1561-1641): the assembly dict, operand
size adjustment, constants, the byte read with its `continue`, names,
callees and the `instructions_data` row.  None of it can raise. -/
def insnTail (h : Host) (fstart : Nat) (blockEA : Int) (st : ExtractSt)
    (idata : List InsRow) (x : Insn) : ExtractSt × List InsRow :=
  let entry : Int × String := ((x.addr : Int) - h.imageBase, x.disasm)
  let st :=
    match dget st.assembly blockEA with
    | some l => { st with assembly := dset st.assembly blockEA (l ++ [ entry ]) }
    | none =>
      if st.nodes = 1 then
        { st with assembly := dset st.assembly blockEA [ entry ] }
      else
        { st with assembly := (dset st.assembly blockEA
            [ ((x.addr : Int) - h.imageBase, locLabel x.addr), entry ]) }
  let st := x.ops.foldl (constStep h x) st
  match h.getManyBytes x.addr (decodedSizeOf x).toNat with
  | none => (st, idata)
  | some bs =>
    if bs.length ≠ (decodedSizeOf x).toNat then (st, idata)
    else
      let st := { st with bytesHash := st.bytesHash ++ [ bs ],
                          bytesSum := st.bytesSum + bs.sum,
                          outdegree := st.outdegree + x.crefs0.length,
                          mnems := st.mnems ++ [ x.mnem ] }
      let tmp1 : Option String := opName h x
      let st :=
        match tmp1 with
        | some tn =>
          if !(tn.startsWith ("sub_")) && !(tn.startsWith ("nullsub_")) then
            { st with namesSet := addUnique st.namesSet tn }
          else st
        | none => st
      let st := x.crefs0.foldl (calleeStep h fstart) st
      let l := if x.crefs0.length = 0 then x.drefs else x.crefs0
      let pr := l.foldl (fun (acc2 : Option String × Option String) ref =>
          match h.namesMap ((ref : Nat) : Int) with
          | some nm2 => (some nm2, h.getType ref)
          | none => acc2) (tmp1, none)
      let row : InsRow :=
        { addr := (x.addr : Int) - h.imageBase, mnem := x.mnem,
          disasm := x.disasm, cmt0 := x.cmt0, cmt1 := x.cmt1,
          opname := pr.1, optype := pr.2 }
      (st, idata ++ [ row ])

/-- The loop body for one instruction `x` (src 1552-1641; the
`switches` block 1643-1666 only builds the elided `switches` list and
cannot raise).  Throws `indexError` exactly where `self.primes[...]` is
subscripted out of range (src 1559, the one statement of the body
outside any `try`); the rest of the body is `insnTail`. -/
def processInsn (h : Host) (vocab : List String) (fstart : Nat)
    (blockEA : Int) (acc : ExtractSt × List InsRow) (x : Insn) :
    Except PyErr (ExtractSt × List InsRow) := do
  let st := acc.1
  let st := { st with lastX := some x.addr,
                      size := st.size + x.itemSize,
                      instructions := st.instructions + 1 }
  let st ←
    if List.contains vocab x.mnem then
      match primesTable.get? (vocab.indexOf x.mnem) with
      | some p => pure { st with mnemonics_spp := st.mnemonics_spp * p }
      | none => throw PyErr.indexError
    else pure st
  pure (insnTail h fstart blockEA st acc.2 x)

/-- One iteration of the successor loop (src 1674-1689) over the
current block at `blockEA`.  The iteration binds the loop variable
`succ_block` (`succBound`) before the `endEA == 0` test. -/
def succStep (h : Host) (blockEA : Int) (st : ExtractSt) (sb : BBRef) :
    ExtractSt :=
  let st := { st with succBound := true }
  if sb.endEA = 0 then st
  else
    let succBase : Int := (sb.startEA : Int) - h.imageBase
    let st := { st with bbRelations := (dset st.bbRelations blockEA
        ((dget st.bbRelations blockEA).getD [] ++ [ succBase ])) }
    let st :=
      match dget st.bbDegree blockEA with
      | some d => { st with bbDegree := dset st.bbDegree blockEA (d.1, d.2 + 1) }
      | none => st
    let st := { st with bbEdges := st.bbEdges ++ [ (blockEA, succBase) ] }
    let st :=
      if dhas st.bbDegree succBase then st
      else { st with bbDegree := dset st.bbDegree succBase (0, 0) }
    let st :=
      match dget st.bbDegree succBase with
      | some d => { st with bbDegree := dset st.bbDegree succBase (d.1 + 1, d.2) }
      | none => st
    { st with edges := st.edges + 1, indegree := st.indegree + 1 }

/-- One iteration of the predecessor loop (src 1691-1705): the
`has_key` test at src 1704 reads the stale successor-loop variable,
raising `NameError` when it was never bound. -/
def predStep (h : Host) (blockEA : Int) (st : ExtractSt) (pb : BBRef) :
    Except PyErr ExtractSt :=
  if pb.endEA = 0 then pure st
  else
    let predBase : Int := (pb.startEA : Int) - h.imageBase
    let st :=
      match dget st.bbRelations predBase with
      | some l => { st with bbRelations := dset st.bbRelations predBase (l ++ [ blockEA ]) }
      | none => { st with bbRelations := dset st.bbRelations predBase [ blockEA ] }
    let st := { st with edges := st.edges + 1, outdegree := st.outdegree + 1 }
    if st.succBound then pure st else throw PyErr.nameError

/-- The per-block bookkeeping before the instruction loop
(src 1544-1550): the node counter and the topological numbering. -/
def blockPrep (st : ExtractSt) (blockEA : Int) : ExtractSt :=
  let st := { st with nodes := st.nodes + 1 }
  let idx := dlen st.bbTopological
  { st with bbTopological := dset st.bbTopological idx [],
            bbTopoNum := dset st.bbTopoNum blockEA idx }

/-- The per-block bookkeeping after the instruction loop
(src 1668-1672): `basic_blocks_data`, the empty `bb_relations` entry
and the `bb_degree` default. -/
def blockPost (st : ExtractSt) (blockEA : Int) (idata : List InsRow) :
    ExtractSt :=
  let st := { st with bbData := dset st.bbData blockEA idata,
                      bbRelations := dset st.bbRelations blockEA [] }
  if dhas st.bbDegree blockEA then st
  else { st with bbDegree := dset st.bbDegree blockEA (0, 0) }

/-- The loop body for one valid basic block (src 1544-1705): counters
and topological bookkeeping, the instruction loop, then the successor
and predecessor passes.  The `dones` dict is written but never read;
the only observable effect of src 1688/1704 is the `NameError` raised
at 1704 when the successor-loop variable was never yet bound. -/
def processBlock (h : Host) (vocab : List String) (fstart : Nat)
    (st : ExtractSt) (b : BBlock) : Except PyErr ExtractSt := do
  let blockEA : Int := (b.startEA : Int) - h.imageBase
  let pr ← b.insns.foldlM (processInsn h vocab fstart blockEA)
    (blockPrep st blockEA, [])
  let st := blockPost pr.1 blockEA pr.2
  let st := b.succs.foldl (succStep h blockEA) st
  b.preds.foldlM (predStep h blockEA) st

/-- The initial extraction state (src 1505-1524), with `indegree`
seeded from `len(CodeRefsTo(f, 1))` (src 1515). -/
def initExtract (h : Host) (f : Nat) : ExtractSt :=
  { nodes := 0, edges := 0, size := 0, instructions := 0, mnems := [],
    namesSet := [], bytesHash := [], bytesSum := 0, outdegree := 0,
    indegree := (h.crefsTo1 f).length, assembly := dnil, bbData := dnil,
    bbRelations := dnil, bbTopoNum := dnil, bbTopological := dnil,
    bbDegree := dnil, bbEdges := [], constants := [], callees := [],
    mnemonics_spp := 1, lastX := none, succBound := false }

/-- One iteration of the main block loop (src 1539-1542): a block whose
end address is `0` or `BADADDR` is skipped entirely. -/
def blockStep (h : Host) (vocab : List String) (fstart : Nat)
    (st : ExtractSt) (b : BBlock) : Except PyErr ExtractSt :=
  if b.endEA = 0 ∨ b.endEA = BADADDR then pure st
  else processBlock h vocab fstart st b

/-- The whole first pass over `flow` (src 1539-1705). -/
def extractPhase (h : Host) (f : Nat) (fstart : Nat)
    (blocks : List BBlock) : Except PyErr ExtractSt :=
  blocks.foldlM (blockStep h (sortedVocab h) fstart) (initExtract h f)

/-- Dictionary lookup raising `KeyError` on a missing key. -/
def dgetE {α β : Type} [BEq α] (d : Dict α β) (k : α) : Except PyErr β :=
  match dget d k with
  | some v => pure v
  | none => throw PyErr.keyError

/-- The second pass over `flow` (src 1707-1718): only `endEA == 0`
blocks and successors are skipped here (NOT `BADADDR` ones), and
`bb_topological[bb_topo_num[block_ea]].append(bb_topo_num[succ_base])`
raises `KeyError` when either address was never registered by the first
pass. -/
def topoSecondPass (h : Host) (blocks : List BBlock)
    (bbTopoNum : Dict Int Nat) (bbTopological0 : Dict Nat (List Nat)) :
    Except PyErr (Dict Nat (List Nat)) :=
  blocks.foldlM (fun bbT b =>
      if b.endEA = 0 then pure bbT
      else
        let blockEA : Int := (b.startEA : Int) - h.imageBase
        b.succs.foldlM (fun bbT sb =>
            if sb.endEA = 0 then pure bbT
            else do
              let succBase : Int := (sb.startEA : Int) - h.imageBase
              let i1 ← dgetE bbTopoNum blockEA
              let cur ← dgetE bbT i1
              let i2 ← dgetE bbTopoNum succBase
              pure (dset bbT i1 (cur ++ [ i2 ]))) bbT)
    bbTopological0

/-- The SCC-prime product loop (src 1726-1730), returning the
accumulated product and whether it completed: `self.primes[val]` out of
range raises `IndexError` mid-loop, keeping the product accumulated so
far. -/
def sccSppLoop (primesT : List Nat) : List (List Int) → Nat → Nat × Bool
  | [], acc => (acc, true)
  | item :: rest, acc =>
    if item.length > 1 then
      match primesT.get? item.length with
      | some p => sccSppLoop primesT rest (acc * p)
      | none => (acc, false)
    else sccSppLoop primesT rest acc

/-- The `try` block of src 1720-1736: on success the SCC list, the
topological sort and the completed SCC-prime product; on any exception
(a tarjan failure, modelled by `tarjanOf = none`, or an oversized SCC
subscript) the handler resets the SCC list to `[]` and the topological
order to `None` but `strongly_connected_spp` keeps whatever value it
had when the exception fired. -/
def sccTryBlock (primesT : List Nat) (outO : Option TarjanOut) :
    List (List Int) × Option (List (List Nat)) × Nat :=
  match outO with
  | none => ([], none, 0)
  | some out =>
    match sccSppLoop primesT out.sccs 1 with
    | (spp, true) => (out.sccs, some out.topo, spp)
    | (spp, false) => ([], none, spp)

/-- The loop counting loop (src 1738-1744): an SCC of size `> 1`, or a
singleton `{b}` with a `b → b` self-edge in `bb_relations`, is a loop;
an EMPTY group raises `IndexError` at `sc[0]`. -/
def loopsCount (bbRel : Dict Int (List Int)) (sccs : List (List Int)) :
    Except PyErr Nat :=
  sccs.foldlM (fun acc sc =>
      if sc.length > 1 then pure (acc + 1)
      else
        match sc.head? with
        | some x =>
          if dhas bbRel x ∧ x ∈ (dget bbRel x).getD [] then pure (acc + 1)
          else pure acc
        | none => throw PyErr.indexError) 0

/-- The assembly-text assembly (src 1746-1764): sort the block keys,
move the entry key to the front — `keys.remove(f - image_base)` raises
`ValueError` when the entry address has no assembly lines — then
concatenate addresses and lines. -/
def assemblyLines (assembly : Dict Int (List (Int × String)))
    (entryKey : Int) : Except PyErr (List Int × String) := do
  let keys := pySortBy (fun a b => a < b) (dkeys assembly)
  let keys2 ← pyRemove keys entryKey
  let lines := (entryKey :: keys2).foldl
    (fun acc k => acc ++ (dget assembly k).getD []) []
  pure (lines.map (fun p => p.1),
    String.intercalate ("\n") (lines.map (fun p => p.2)))

/-- `bb_topo_order` (src 1809-1812): for each group of the topological
sort, in order, map each member to the group index (a later group wins
on duplicates, as in a dict). -/
def buildTopoOrder (topoSorted : List (List Nat)) : Dict Nat Nat :=
  topoSorted.enum.foldl (fun d pr =>
      pr.2.foldl (fun d bb => dset d bb pr.1) d)
    dnil

/-- One 5-tuple of the MD-index loop (src 1815-1820):
`(bb_topo_order[bb_topo_num[src]], bb_degree[src][0], bb_degree[src][1],
bb_degree[dst][0], bb_degree[dst][1])`, each dictionary subscript
raising `KeyError` when missing, in evaluation order. -/
def mdTupleOf (btn : Dict Int Nat) (bto : Dict Nat Nat)
    (deg : Dict Int (Nat × Nat)) (e : Int × Int) : Except PyErr MDTuple := do
  let i1 ← dgetE btn e.1
  let z0 ← dgetE bto i1
  let ds ← dgetE deg e.1
  let dd ← dgetE deg e.2
  pure { z0 := z0, z1 := ds.1, z2 := ds.2, z3 := dd.1, z4 := dd.2 }

/-- The MD-index tuple loop (src 1813-1820): one 5-tuple per recorded
control-flow edge. -/
def mdTuplesOf (bbTopoNum : Dict Int Nat) (bbDegree : Dict Int (Nat × Nat))
    (bbEdges : List (Int × Int)) (topoSorted : List (List Nat)) :
    Except PyErr (List MDTuple) :=
  let bto := buildTopoOrder topoSorted
  bbEdges.foldlM
    (fun acc e => (mdTupleOf bbTopoNum bto bbDegree e).map
      (fun t => acc ++ [ t ])) []

/-- The effective function name (src 1465-1472): the demangled name
when `Demangle` yields a non-empty result, the raw `GetFunctionName`
otherwise. -/
def effName (h : Host) (f : Nat) : String :=
  let name0 := h.funcNameOf f
  let dm0 := h.demangle name0
  let dm := if dm0 = some ("") then none else dm0
  dm.getD name0

/-- Build the record tuple of src 1834-1844 from the extraction state
and the post-pass results (`loops` from 1738-1744, `ap` the assembly
addresses and text from 1746-1764, `md` the MD-index tuples or `None`
from 1807-1826, `seg` from 1828); everything else of the tuple is
recomputed here from the host and the state exactly as the source
does. -/
def mkRecord (h : Host) (f : Nat) (st : ExtractSt) (loops : Nat)
    (ap : List Int × String) (md : Option (List MDTuple)) (seg : Int) :
    FuncRecord :=
  let name := effName h f
  let callers := (h.crefsTo0 f).foldl (fun acc caller =>
      match h.getFunc caller with
      | some cs => if cs ∉ acc then acc ++ [ cs ] else acc
      | none => acc) []
  let scc := sccTryBlock primesTable (h.tarjanOf f)
  let cc : Int := (st.edges : Int) - (st.nodes : Int) + 2
  let pseudoPair :=
    match h.pseudoOf f with
    | some ls => (some (String.intercalate ("\n") ls), ls.length)
    | none => (none, 0)
  { name := name, nodes := st.nodes, edges := st.edges,
    indegree := st.indegree, outdegree := st.outdegree,
    size := st.size, instructions := st.instructions,
    mnems := st.mnems, names := st.namesSet,
    proto := h.guessType f, cc := cc,
    primeVal := (pyGet primesTable cc).getD 0, f := f,
    comment := h.funcCmt f, true_name := h.funcNameOf f,
    bytes_hash := st.bytesHash, pseudo := pseudoPair.1,
    pseudo_lines := pseudoPair.2, function_flags := h.funcFlags f,
    asm := ap.2, proto2 := h.getType f,
    strongly_connected_size := scc.1.length,
    loops := loops, rva := (f : Int) - h.imageBase,
    bb_topological := scc.2.1,
    strongly_connected_spp := scc.2.2,
    clean_assembly := h.cleanAsm ap.2,
    mnemonics_spp := st.mnemonics_spp, bytes_sum := st.bytesSum,
    mdTuples := md, constants := st.constants,
    constants_size := st.constants.length, seg_rva := seg,
    assembly_addrs := ap.1, kgh_hash := h.kghOf f,
    callers := callers, callees := st.callees,
    basic_blocks_data := st.bbData, bb_relations := st.bbRelations }

/-- The MD-index step (src 1807-1826) as run by `read_function`: the
`if bb_topological:` test is true exactly when the `try` of 1722-1736
succeeded (the json string of a list, even an empty one, is truthy);
on failure `md_index` stays `0`, modelled as `none`. -/
def mdStep (st : ExtractSt) (sccTopo : Option (List (List Nat))) :
    Except PyErr (Option (List MDTuple)) :=
  match sccTopo with
  | some topoS =>
    (mdTuplesOf st.bbTopoNum st.bbDegree st.bbEdges topoS).map some
  | none => pure none

/-- `seg_rva = x - SegStart(x)` (src 1828): `x` is the stale loop
variable of the innermost instruction loop; if no instruction was ever
iterated the name is unbound and a `NameError` escapes. -/
def segStep (h : Host) (lastX : Option Nat) : Except PyErr Int :=
  match lastX with
  | some x => pure ((x : Int) - (h.segStart x : Int))
  | none => throw PyErr.nameError

/-- `read_function`, src 1464-1851.  Returns `.ok none` where the
source returns `False` (filtered function), `.ok (some record)` for a
successful export, and `.error e` where an uncaught python exception
would propagate out of the function. -/
def read_function (h : Host) (f : Nat) : Except PyErr (Option FuncRecord) :=
  let name := effName h f
  let hookOk :=
    match h.hooks with
    | some hk => hk.before f name
    | none => true
  if !hookOk then pure none
  else
    match h.getFunc f with
    | none => pure none
    | some fstart =>
      if !h.idaSubs &&
          (name.startsWith ("sub_") || name.startsWith ("j_") ||
           name.startsWith ("unknown") || name.startsWith ("nullsub_") ||
           flagTest (h.funcFlags f) FUNC_LIB || h.funcFlags f == -1) then
        pure none
      else if h.excludeLibThunk &&
          (flagTest (h.funcFlags f) FUNC_LIB ||
           flagTest (h.funcFlags f) FUNC_THUNK || h.funcFlags f == -1) then
        pure none
      else do
        let st ← extractPhase h f fstart (h.flowOf f)
        let _bbT ← topoSecondPass h (h.flowOf f) st.bbTopoNum st.bbTopological
        let loops ← loopsCount st.bbRelations
          (sccTryBlock primesTable (h.tarjanOf f)).1
        let ap ← assemblyLines st.assembly ((f : Int) - h.imageBase)
        let md ← mdStep st (sccTryBlock primesTable (h.tarjanOf f)).2.1
        let seg ← segStep h st.lastX
        let rec0 := mkRecord h f st loops ap md seg
        pure (some (match h.hooks with
          | some hk => hk.after rec0
          | none => rec0))

/-! ### The batch export loop and crash-resume (src 671-809)

The SQLite-backed pieces live in `diaphora.py`, which is not under
`src/`; they are modelled from the spec as follows.  `save_function`
appends the record to the `functions` table in export order, storing
the function's RVA in the `address` column and `prime` in
`primes_value` (the spec: on resume the pipeline "locates the last
function committed (by scanning the most recently inserted record) and
skips every function up to and including that RVA", so the scanned
`address` is an RVA).  The committed table contents are therefore a
list of `FuncRecord`s; `decimal.Decimal` products are idealized as
exact naturals and the per-prime histogram dict as a multiset. -/

/-- `get_last_crash_func`, src 671-683:
`select address from functions order by id desc limit 1`, i.e. the RVA
of the most recently inserted committed record, or `None` for an empty
table. -/
def get_last_crash_func (committed : List FuncRecord) : Option Int :=
  committed.getLast?.map (fun r => r.rva)

/-- `recalculate_primes`, src 685-702: re-derive the call-graph prime
product and per-prime histogram from the committed records'
`primes_value` column. -/
def recalculate_primes (committed : List FuncRecord) : Nat × Multiset Nat :=
  committed.foldl (fun acc r => (acc.1 * r.primeVal, r.primeVal ::ₘ acc.2))
    (1, 0)

/-- The mutable state of the `do_export` loop. -/
structure ExpSt where
  crashed : Bool
  records : List FuncRecord
  cgPrimes : Nat
  cgHist : Multiset Nat

/-- The observable outcome of `do_export`: the final contents of the
`functions` table, the call-graph aggregates, and the final value of
the `crashed_before` flag. -/
structure ExpOut where
  records : List FuncRecord
  cgPrimes : Nat
  cgHist : Multiset Nat
  crashedFlag : Bool

/-- One iteration of the `do_export` loop (src 740-760): in crashed
mode skip until the function whose RVA equals the recovered address and
clear the flag there; otherwise read the function, skip it when
filtered, and otherwise commit it and fold its prime into the
call-graph aggregates. -/
def exportStep (h : Host) (startF : Option Int) (st : ExpSt) (func : Nat) :
    Except PyErr ExpSt :=
  if st.crashed then
    if startF ≠ some ((func : Int) - (h.imageBase : Int)) then pure st
    else pure { st with crashed := false }
  else
    (read_function h func).bind (fun props? =>
      match props? with
      | none => pure st
      | some props =>
        pure { st with records := st.records ++ [ props ],
                       cgPrimes := st.cgPrimes * props.primeVal,
                       cgHist := props.primeVal ::ₘ st.cgHist })

/-- `do_export`, src 704-777.  `funcs` is `list(Functions(min_ea,
max_ea))` and `committed` the pre-existing `functions` rows.  On a
resume with an empty table the flag is dropped with a warning (src
713-716); otherwise the aggregates are re-derived and every function is
skipped until (and including) the one whose RVA equals the recovered
address (src 740-748).  A function filtered out by `read_function`
(`False`) is skipped; an uncaught exception in `read_function`
propagates and aborts the batch. -/
def do_export (h : Host) (funcs : List Nat) (committed : List FuncRecord)
    (crashed_before : Bool) : Except PyErr ExpOut := do
  let init : Bool × Option Int × Nat × Multiset Nat :=
    if crashed_before then
      match get_last_crash_func committed with
      | none => (false, none, 1, 0)
      | some a => (true, some a, (recalculate_primes committed).1,
                   (recalculate_primes committed).2)
    else (false, none, 1, 0)
  let fin ← funcs.foldlM (exportStep h init.2.1)
    { crashed := init.1, records := committed,
      cgPrimes := init.2.2.1, cgHist := init.2.2.2 }
  pure { records := fin.records, cgPrimes := fin.cgPrimes,
         cgHist := fin.cgHist, crashedFlag := fin.crashed }

/-- The sequence of records produced by reading a list of functions in
order, skipping the filtered ones; errors if any read errors. -/
def readAll (h : Host) : List Nat → Except PyErr (List FuncRecord)
  | [] => pure []
  | g :: l =>
    (read_function h g).bind (fun props? =>
      match props? with
      | none => readAll h l
      | some r => (readAll h l).map (fun rest => r :: rest))

/-- `export`, src 779-809, restricted to its observable
sentinel/outcome behavior: `sentinelPresent` says whether the
`<db>-crash` file existed on entry (making this run a resume); the
crash file is then (re)created (src 791-793) and `do_export` runs.  On
normal return the sentinel is removed (src 803); on an exception it
survives, because the `try` at src 795-799 has only a `finally`.
Returns the `do_export` outcome and whether the sentinel is still
present afterwards. -/
def export_session (h : Host) (funcs : List Nat)
    (committed : List FuncRecord) (sentinelPresent : Bool) :
    Except PyErr ExpOut × Bool :=
  match do_export h funcs committed sentinelPresent with
  | .ok out => (.ok out, false)
  | .error e => (.error e, true)

/-! ### Characterizing a successful `read_function` run -/

/-- `do`-bind reduction for `Except` on a success value. -/
theorem exceptBind_ok {ε α β : Type} (a : α) (k : α → Except ε β) :
    (Except.ok a >>= k) = k a := rfl

/-- `do`-bind reduction for `Except` on an error. -/
theorem exceptBind_err {ε α β : Type} (e : ε) (k : α → Except ε β) :
    ((Except.error e : Except ε α) >>= k) = Except.error e := rfl

/-- `throw` for `Except` is `Except.error`. -/
theorem exceptThrow_eq {ε α : Type} (e : ε) :
    (throw e : Except ε α) = Except.error e := rfl

/-- `<$>` reduction for `Except` on a success value. -/
theorem exceptFMap_ok {ε α β : Type} (g : α → β) (a : α) :
    (g <$> (Except.ok a : Except ε α)) = Except.ok (g a) := rfl

/-- `<$>` reduction for `Except` on an error. -/
theorem exceptFMap_err {ε α β : Type} (g : α → β) (e : ε) :
    (g <$> (Except.error e : Except ε α)) = Except.error e := rfl

/-- `Except.bind` reduction on a success value. -/
theorem exceptDtBind_ok {ε α β : Type} (a : α) (k : α → Except ε β) :
    Except.bind (Except.ok a) k = k a := rfl

/-- `Except.bind` reduction on an error. -/
theorem exceptDtBind_err {ε α β : Type} (e : ε) (k : α → Except ε β) :
    (Except.bind (Except.error e : Except ε α) k) = Except.error e := rfl

/-- If `read_function` (with no hooks installed) produced a record,
every post-extraction step succeeded and the record is `mkRecord` of
their results. -/
theorem read_function_ok_elim (h : Host) (f : Nat) (r : FuncRecord)
    (hh : h.hooks = none) (hr : read_function h f = .ok (some r)) :
    ∃ fstart st bbT loops ap md seg,
      h.getFunc f = some fstart ∧
      extractPhase h f fstart (h.flowOf f) = .ok st ∧
      topoSecondPass h (h.flowOf f) st.bbTopoNum st.bbTopological = .ok bbT ∧
      loopsCount st.bbRelations (sccTryBlock primesTable (h.tarjanOf f)).1
        = .ok loops ∧
      assemblyLines st.assembly ((f : Int) - h.imageBase) = .ok ap ∧
      mdStep st (sccTryBlock primesTable (h.tarjanOf f)).2.1 = .ok md ∧
      segStep h st.lastX = .ok seg ∧
      r = mkRecord h f st loops ap md seg := by
  unfold read_function at hr
  rw [hh] at hr
  simp only [Bool.not_true, Bool.false_eq_true, if_false] at hr
  cases hg : h.getFunc f with
  | none => rw [hg] at hr; simp [exceptBind_err, pure, Except.pure] at hr
  | some fstart =>
    rw [hg] at hr
    dsimp only at hr
    split at hr
    · simp [exceptBind_err, pure, Except.pure] at hr
    split at hr
    · simp [exceptBind_err, pure, Except.pure] at hr
    refine ⟨fstart, ?_⟩
    cases he : extractPhase h f fstart (h.flowOf f) with
    | error e => rw [he] at hr; simp [exceptBind_err, pure, Except.pure] at hr
    | ok st =>
      rw [he] at hr
      simp only [exceptBind_ok] at hr
      cases hb : topoSecondPass h (h.flowOf f) st.bbTopoNum st.bbTopological with
      | error e => rw [hb] at hr; simp [exceptBind_err, pure, Except.pure] at hr
      | ok bbT =>
        rw [hb] at hr
        simp only [exceptBind_ok] at hr
        cases hl : loopsCount st.bbRelations
            (sccTryBlock primesTable (h.tarjanOf f)).1 with
        | error e => rw [hl] at hr; simp [exceptBind_err, pure, Except.pure] at hr
        | ok loops =>
          rw [hl] at hr
          simp only [exceptBind_ok] at hr
          cases ha : assemblyLines st.assembly ((f : Int) - h.imageBase) with
          | error e => rw [ha] at hr; simp [exceptBind_err, pure, Except.pure] at hr
          | ok ap =>
            rw [ha] at hr
            simp only [exceptBind_ok] at hr
            cases hm : mdStep st (sccTryBlock primesTable (h.tarjanOf f)).2.1 with
            | error e => rw [hm] at hr; simp [exceptBind_err, pure, Except.pure] at hr
            | ok md =>
              rw [hm] at hr
              simp only [exceptBind_ok] at hr
              cases hs : segStep h st.lastX with
              | error e => rw [hs] at hr; simp [exceptBind_err, pure, Except.pure] at hr
              | ok seg =>
                rw [hs] at hr
                simp only [exceptBind_ok, pure, Except.pure,
                  Except.ok.injEq, Option.some.injEq] at hr
                exact ⟨st, bbT, loops, ap, md, seg, rfl, rfl, hb, hl, ha, hm,
                  hs, hr.symm⟩

/-- Conversely, when the filters pass and every post-extraction step
succeeds, `read_function` exports the `mkRecord` record. -/
theorem read_function_ok_intro (h : Host) (f fstart : Nat) (st : ExtractSt)
    (bbT : Dict Nat (List Nat)) (loops : Nat) (ap : List Int × String)
    (md : Option (List MDTuple)) (seg : Int)
    (hh : h.hooks = none) (hsubs : h.idaSubs = true)
    (hlib : h.excludeLibThunk = false)
    (hg : h.getFunc f = some fstart)
    (he : extractPhase h f fstart (h.flowOf f) = .ok st)
    (hb : topoSecondPass h (h.flowOf f) st.bbTopoNum st.bbTopological = .ok bbT)
    (hl : loopsCount st.bbRelations (sccTryBlock primesTable (h.tarjanOf f)).1
        = .ok loops)
    (ha : assemblyLines st.assembly ((f : Int) - h.imageBase) = .ok ap)
    (hm : mdStep st (sccTryBlock primesTable (h.tarjanOf f)).2.1 = .ok md)
    (hs : segStep h st.lastX = .ok seg) :
    read_function h f = .ok (some (mkRecord h f st loops ap md seg)) := by
  unfold read_function
  rw [hh, hsubs, hlib, hg]
  dsimp only
  rw [he]
  simp only [exceptBind_ok]
  rw [hb]
  simp only [exceptBind_ok]
  rw [hl]
  simp only [exceptBind_ok]
  rw [ha]
  simp only [exceptBind_ok]
  rw [hm]
  simp only [exceptBind_ok]
  rw [hs]
  simp only [exceptBind_ok]
  rfl

/-! ### Concrete environments for counterexamples and witnesses -/

deriving instance DecidableEq for FuncRecord

/-- A host whose every query answers the trivial/absent value; concrete
environments below override the few fields they need. -/
def hostBase : Host :=
  { imageBase := 0, idaSubs := true, excludeLibThunk := false,
    hooks := none,
    funcNameOf := fun _ => "f",
    demangle := fun _ => none,
    getFunc := fun _ => none,
    flowOf := fun _ => [],
    funcFlags := fun _ => 0,
    crefsTo0 := fun _ => [], crefsTo1 := fun _ => [],
    getManyBytes := fun _ _ => none,
    rawInstructionList := [],
    namesMap := fun _ => none,
    getType := fun _ => none, guessType := fun _ => none,
    getStr := fun _ => none, funcCmt := fun _ => none,
    tarjanOf := fun _ => none,
    pseudoOf := fun _ => none,
    kghOf := fun _ => "", cleanAsm := fun s => s,
    segStart := fun _ => 0 }

/-- A junk record, used only as the default of the extractors below. -/
def someRecord : FuncRecord :=
  mkRecord hostBase 0 (initExtract hostBase 0) 0 ([], "") none 0

def recOf (x : Except PyErr (Option FuncRecord)) : FuncRecord :=
  match x with
  | .ok (some r) => r
  | _ => someRecord

def stOf (x : Except PyErr ExtractSt) : ExtractSt :=
  match x with
  | .ok st => st
  | _ => initExtract hostBase 0

def apOf (x : Except PyErr (List Int × String)) : List Int × String :=
  match x with
  | .ok p => p
  | _ => ([], "")

def segOf (x : Except PyErr Int) : Int :=
  match x with
  | .ok i => i
  | _ => 0

def dictOf (x : Except PyErr (Dict Nat (List Nat))) : Dict Nat (List Nat) :=
  match x with
  | .ok d => d
  | _ => dnil

def expOutOf (x : Except PyErr ExpOut) : ExpOut :=
  match x with
  | .ok o => o
  | _ => { records := [], cgPrimes := 1, cgHist := 0, crashedFlag := false }

/-! ### C3: invalid-end basic blocks -/

/-- The C3 environment: function `64` whose flow graph has a valid
entry block `A = [64, 68)` and a second block `B` starting at `128`
whose end address is the `BADADDR` sentinel; `A`'s only successor is
`B`. -/
def blkC3A : BBlock :=
  { bid := 0, startEA := 64, endEA := 68, insns := [],
    succs := [ { bid := 1, startEA := 128, endEA := BADADDR } ],
    preds := [] }

def blkC3B : BBlock :=
  { bid := 1, startEA := 128, endEA := BADADDR, insns := [],
    succs := [], preds := [ { bid := 0, startEA := 64, endEA := 68 } ] }

def hC3 : Host :=
  { hostBase with
    getFunc := fun a => if a = 64 then some 64 else none,
    flowOf := fun _ => [ blkC3A, blkC3B ] }

/-- C3: FALSE of the code.  The claim says a basic block whose end
address is invalid (zero or `BADADDR`) contributes zero nodes, edges
and degree counts, also when reached as a successor or predecessor.
The main loop does skip such blocks (src 1540), but the successor and
predecessor loops test only `endEA == 0` (src 1675, 1692): in the C3
environment the `BADADDR`-ended block `B`, reached as a successor of
the valid entry block, contributes one edge, one unit of indegree and a
`bb_degree` entry of `(1, 0)`.  Worse, the second topological pass also
skips only `endEA == 0` blocks (src 1708, 1713), so it looks up
`bb_topo_num[succ_base]` for `B`, which the first pass never
registered: the `KeyError` escapes `read_function` and the function is
not exported at all. -/
theorem c3_invalid_successor_counted :
    read_function hC3 64 = .error PyErr.keyError ∧
    (extractPhase hC3 64 64 (hC3.flowOf 64)).map
      (fun st => (st.nodes, st.edges, st.indegree, dget st.bbDegree 128))
      = .ok (1, 1, 1, some (1, 0)) :=
  ⟨rfl, rfl⟩

/-! ### C7: the cyclomatic complexity field -/

/-- A minimal valid instruction at `a`: a two-byte `nop` with no
operands and no references. -/
def nopAt (a : Nat) : Insn :=
  { addr := a, mnem := "nop", disasm := "nop", itemSize := 2,
    decodedSize := 2, ops := [], drefs := [], crefs0 := [],
    opValue0 := -1, opValue1 := -1, cmt0 := none, cmt1 := none }

/-- The C7 environment: function `64` with two valid, disconnected
basic blocks, one instruction each. -/
def hC7 : Host :=
  { hostBase with
    getFunc := fun a => if a = 64 then some 64 else none,
    flowOf := fun _ =>
      [ { bid := 0, startEA := 64, endEA := 66, insns := [ nopAt 64 ],
          succs := [], preds := [] },
        { bid := 1, startEA := 80, endEA := 82, insns := [ nopAt 80 ],
          succs := [], preds := [] } ] }

/-- C7 counterexample: the claim's second half (`cc ≥ 1`) is FALSE.  A
function with two disconnected valid blocks is exported with
`nodes = 2`, `edges = 0` and `cc = edges - nodes + 2 = 0 < 1`. -/
theorem c7_counterexample :
    (read_function hC7 64).map (Option.map
      (fun r => (r.nodes, r.edges, r.cc))) = .ok (some (2, 0, 0)) :=
  rfl

/-- C7 (amended): for every record exported by `read_function` with no
project hooks installed, the `cc` field equals exactly
`edges - nodes + 2` computed over the record's own counters; the bound
`cc ≥ 1` of the original claim does not hold (see the counterexample,
where a disconnected flow graph gives `cc = 0`; `cc` can even be
negative). -/
theorem c7_amended (h : Host) (f : Nat) (r : FuncRecord)
    (hh : h.hooks = none) (hr : read_function h f = .ok (some r)) :
    r.cc = (r.edges : Int) - (r.nodes : Int) + 2 := by
  obtain ⟨fstart, st, bbT, loops, ap, md, seg, _, _, _, _, _, _, _, hrec⟩ :=
    read_function_ok_elim h f r hh hr
  subst hrec
  rfl

/-- A record concretely exported in the C7 environment. -/
def rC7 : FuncRecord := recOf (read_function hC7 64)

theorem c7_amended_witness :
    rC7.cc = (rC7.edges : Int) - (rC7.nodes : Int) + 2 :=
  c7_amended hC7 64 rC7 rfl rfl

/-! ### C2: containment of per-function failures -/

/-- The C2 environment: function `64` whose only basic block is valid
(`endEA = 64`, neither `0` nor `BADADDR`) but empty, so no assembly
line is ever recorded for the entry address. -/
def hC2 : Host :=
  { hostBase with
    getFunc := fun a => if a = 64 then some 64 else none,
    flowOf := fun _ =>
      [ { bid := 0, startEA := 64, endEA := 64, insns := [],
          succs := [], preds := [] } ] }

/-- A C2 environment in which export succeeds with degraded SCC
fields: one valid one-instruction block, and a `tarjan` oracle that
fails (`tarjanOf = none`, inherited from `hostBase`). -/
def hC2b : Host :=
  { hostBase with
    getFunc := fun a => if a = 64 then some 64 else none,
    flowOf := fun _ =>
      [ { bid := 0, startEA := 64, endEA := 66, insns := [ nopAt 64 ],
          succs := [], preds := [] } ] }

/-- C2 counterexample: the claim's "the whole batch export is never
aborted by a per-function failure" is FALSE.  In the `hC2` environment
`keys.remove(f - image_base)` (src 1758) raises an uncaught
`ValueError` inside `read_function`, which propagates through
`do_export` (src 750) and aborts the whole batch. -/
theorem c2_counterexample :
    do_export hC2 [ 64 ] [] false = .error PyErr.valueError :=
  rfl

/-- The loop of `do_export` propagates any `read_function` exception:
if every function before `f` reads without an exception and `f` raises
`e`, the whole fold errors with `e`. -/
theorem exportFold_error (h : Host) (sF : Option Int) :
    ∀ (P : List Nat) (st : ExpSt) (f : Nat) (R : List Nat) (e : PyErr),
      st.crashed = false →
      (∀ g ∈ P, ∃ v, read_function h g = .ok v) →
      read_function h f = .error e →
      (P ++ f :: R).foldlM (exportStep h sF) st = .error e := by
  intro P
  induction P with
  | nil =>
    intro st f R e hcr _ hf
    simp only [List.nil_append, List.foldlM_cons]
    simp [exportStep, hcr, hf, Except.bind, exceptBind_err]
  | cons g P ih =>
    intro st f R e hcr hall hf
    simp only [List.cons_append, List.foldlM_cons]
    obtain ⟨v, hv⟩ := hall g (List.mem_cons_self g P)
    cases v with
    | none =>
      simp only [exportStep, hcr, if_false, hv, exceptBind_ok]
      exact ih st f R e hcr
        (fun g2 hg2 => hall g2 (List.mem_cons_of_mem g hg2)) hf
    | some props =>
      simp only [exportStep, hcr, if_false, hv, exceptBind_ok]
      exact ih _ f R e rfl
        (fun g2 hg2 => hall g2 (List.mem_cons_of_mem g hg2)) hf

/-- C2 (amended): per-function failure containment is partial.  (1) An
uncaught per-function exception (here: any `read_function` error, such
as the `ValueError` of the counterexample, the mnemonics-table
`IndexError` of src 1559, the `KeyError` of the second topological
pass, or the `NameError` of src 1828) aborts the whole batch export.
(2) The SCC/topological failure of the original claim IS contained as
claimed: when the tarjan oracle fails, the function is still exported,
with the degraded fallback fields `strongly_connected_spp = 0`,
`bb_topological = NULL`, zero SCCs and loops, and MD-index `0`. -/
theorem c2_amended :
    (∀ (h : Host) (P R : List Nat) (f : Nat) (e : PyErr),
        (∀ g ∈ P, ∃ v, read_function h g = .ok v) →
        read_function h f = .error e →
        do_export h (P ++ f :: R) [] false = .error e) ∧
    (∀ (h : Host) (f fstart : Nat) (st : ExtractSt)
        (bbT : Dict Nat (List Nat)) (ap : List Int × String) (seg : Int),
        h.hooks = none → h.idaSubs = true → h.excludeLibThunk = false →
        h.getFunc f = some fstart →
        extractPhase h f fstart (h.flowOf f) = .ok st →
        topoSecondPass h (h.flowOf f) st.bbTopoNum st.bbTopological
          = .ok bbT →
        h.tarjanOf f = none →
        assemblyLines st.assembly ((f : Int) - h.imageBase) = .ok ap →
        segStep h st.lastX = .ok seg →
        ∃ r, read_function h f = .ok (some r) ∧
          r.strongly_connected_spp = 0 ∧ r.bb_topological = none ∧
          r.strongly_connected_size = 0 ∧ r.loops = 0 ∧
          r.mdTuples = none ∧ r.md_index = 0) := by
  constructor
  · intro h P R f e hall hf
    unfold do_export
    simp only [if_false, Bool.false_eq_true]
    rw [exportFold_error h none P _ f R e rfl hall hf]
    rfl
  · intro h f fstart st bbT ap seg hh hsubs hlib hg he hb htar ha hs
    refine ⟨mkRecord h f st 0 ap none seg, ?_, ?_, ?_, ?_, ?_, ?_, ?_⟩
    · exact read_function_ok_intro h f fstart st bbT 0 ap none seg
        hh hsubs hlib hg he hb (by rw [htar]; rfl) ha (by rw [htar]; rfl) hs
    · show (sccTryBlock primesTable (h.tarjanOf f)).2.2 = 0
      rw [htar]; rfl
    · show (sccTryBlock primesTable (h.tarjanOf f)).2.1 = none
      rw [htar]; rfl
    · show (sccTryBlock primesTable (h.tarjanOf f)).1.length = 0
      rw [htar]; rfl
    · rfl
    · rfl
    · rfl

def stC2 : ExtractSt := stOf (extractPhase hC2b 64 64 (hC2b.flowOf 64))

def bbTC2 : Dict Nat (List Nat) :=
  dictOf (topoSecondPass hC2b (hC2b.flowOf 64) stC2.bbTopoNum stC2.bbTopological)

def apC2 : List Int × String :=
  apOf (assemblyLines stC2.assembly ((64 : Int) - hC2b.imageBase))

def segC2 : Int := segOf (segStep hC2b stC2.lastX)

theorem c2_amended_witness :
    do_export hC2 ([] ++ 64 :: []) [] false = .error PyErr.valueError ∧
    (∃ r, read_function hC2b 64 = .ok (some r) ∧
      r.strongly_connected_spp = 0 ∧ r.bb_topological = none ∧
      r.strongly_connected_size = 0 ∧ r.loops = 0 ∧
      r.mdTuples = none ∧ r.md_index = 0) :=
  ⟨c2_amended.1 hC2 [] [] 64 PyErr.valueError (by simp) rfl,
   c2_amended.2 hC2b 64 64 stC2 bbTC2 apC2 segC2 rfl rfl rfl rfl rfl rfl
     rfl rfl rfl⟩

/-! ### C9: the MD-index formula -/

/-- The spec's MD-index formula, written from its words: the sum, over
the per-edge 5-tuples, of the reciprocal square root of
`z0 + z1*sqrt 2 + z2*sqrt 3 + z3*sqrt 5 + z4*sqrt 7`. -/
noncomputable def mdSpecSum (ts : List MDTuple) : Real :=
  (ts.map (fun t => 1 / Real.sqrt ((t.z0 : Real) + (t.z1 : Real) * Real.sqrt 2 +
    (t.z2 : Real) * Real.sqrt 3 + (t.z3 : Real) * Real.sqrt 5 +
    (t.z4 : Real) * Real.sqrt 7))).sum

theorem foldl_add_sum (f : MDTuple → Real) :
    ∀ (l : List MDTuple) (a : Real),
      l.foldl (fun acc t => acc + f t) a = a + (l.map f).sum := by
  intro l
  induction l with
  | nil => intro a; simp
  | cons t l ih =>
    intro a
    simp only [List.foldl_cons, List.map_cons, List.sum_cons, ih, add_assoc]

theorem mdIndexValue_eq_spec (ts : List MDTuple) :
    mdIndexValue ts = mdSpecSum ts := by
  unfold mdIndexValue mdSpecSum
  rw [foldl_add_sum, zero_add]

/-- The spec's description of one MD-index tuple for an edge
`e = (src, dst)`: `z0` is the topological order of `src`'s SCC (looked
up through `bb_topo_num` and the enumeration of the sorted SCC groups),
`(z1, z2)` are the in/out-degrees of `src` and `(z3, z4)` those of
`dst`, all as recorded in `bb_degree`. -/
def mdEdgeTuple (btn : Dict Int Nat) (bto : Dict Nat Nat)
    (deg : Dict Int (Nat × Nat)) (e : Int × Int) (t : MDTuple) : Prop :=
  ∃ i1 ds dd, dget btn e.1 = some i1 ∧ dget bto i1 = some t.z0 ∧
    dget deg e.1 = some ds ∧ dget deg e.2 = some dd ∧
    t.z1 = ds.1 ∧ t.z2 = ds.2 ∧ t.z3 = dd.1 ∧ t.z4 = dd.2

theorem mdTupleOf_elim (btn : Dict Int Nat) (bto : Dict Nat Nat)
    (deg : Dict Int (Nat × Nat)) (e : Int × Int) (t : MDTuple)
    (hm : mdTupleOf btn bto deg e = .ok t) :
    mdEdgeTuple btn bto deg e t := by
  unfold mdTupleOf dgetE at hm
  cases h1 : dget btn e.1 with
  | none => rw [h1] at hm; simp [exceptThrow_eq, exceptBind_err] at hm
  | some i1 =>
    rw [h1] at hm
    simp only [pure, Except.pure, exceptBind_ok] at hm
    cases h2 : dget bto i1 with
    | none => rw [h2] at hm; simp [exceptThrow_eq, exceptBind_err] at hm
    | some z0 =>
      rw [h2] at hm
      simp only [pure, Except.pure, exceptBind_ok] at hm
      cases h3 : dget deg e.1 with
      | none => rw [h3] at hm; simp [exceptThrow_eq, exceptBind_err] at hm
      | some ds =>
        rw [h3] at hm
        simp only [pure, Except.pure, exceptBind_ok] at hm
        cases h4 : dget deg e.2 with
        | none =>
          rw [h4] at hm
          simp [exceptThrow_eq, exceptBind_err, exceptFMap_err] at hm
        | some dd =>
          rw [h4] at hm
          simp only [pure, Except.pure, exceptBind_ok, exceptFMap_ok,
            Except.ok.injEq] at hm
          subst hm
          exact ⟨i1, ds, dd, h1, h2, h3, h4, rfl, rfl, rfl, rfl⟩

theorem mdFold_forall2 (btn : Dict Int Nat) (bto : Dict Nat Nat)
    (deg : Dict Int (Nat × Nat)) :
    ∀ (edges : List (Int × Int)) (acc ts : List MDTuple),
      edges.foldlM (fun acc e => (mdTupleOf btn bto deg e).map
        (fun t => acc ++ [ t ])) acc = .ok ts →
      ∃ ts2, ts = acc ++ ts2 ∧
        List.Forall₂ (fun e t => mdTupleOf btn bto deg e = .ok t) edges ts2 := by
  intro edges
  induction edges with
  | nil =>
    intro acc ts hts
    simp only [List.foldlM_nil, pure, Except.pure, Except.ok.injEq] at hts
    exact ⟨[], by simp [hts], List.Forall₂.nil⟩
  | cons e es ih =>
    intro acc ts hts
    simp only [List.foldlM_cons] at hts
    cases hm : mdTupleOf btn bto deg e with
    | error err =>
      rw [hm] at hts
      simp [Except.map, Except.bind, exceptBind_err] at hts
    | ok t =>
      rw [hm] at hts
      simp only [Except.map, exceptBind_ok] at hts
      obtain ⟨ts2, hts2, hfa⟩ := ih (acc ++ [ t ]) ts hts
      exact ⟨t :: ts2, by simp [hts2], List.Forall₂.cons hm hfa⟩

/-- C9: for every record exported with no hooks, if the topological
step failed the MD-index is `0`, and otherwise the MD-index equals the
spec's sum over exactly the recorded control-flow edges, each 5-tuple
carrying the topological order of the source's SCC group and the
recorded in/out-degrees of source and destination.  (`decimal.Decimal`
square-root arithmetic is idealized as exact real arithmetic.) -/
theorem c9_md_index (h : Host) (f : Nat) (r : FuncRecord)
    (hh : h.hooks = none) (hr : read_function h f = .ok (some r)) :
    (r.mdTuples = none → r.md_index = 0) ∧
    (∀ ts, r.mdTuples = some ts →
      r.md_index = mdSpecSum ts ∧
      ∃ fstart st topoS,
        h.getFunc f = some fstart ∧
        extractPhase h f fstart (h.flowOf f) = .ok st ∧
        r.bb_topological = some topoS ∧
        List.Forall₂
          (mdEdgeTuple st.bbTopoNum (buildTopoOrder topoS) st.bbDegree)
          st.bbEdges ts) := by
  obtain ⟨fstart, st, bbT, loops, ap, md, seg, hg, he, hb, hl, ha, hm, hs,
    hrec⟩ := read_function_ok_elim h f r hh hr
  subst hrec
  constructor
  · intro hmd
    have hmd2 : md = none := hmd
    subst hmd2
    rfl
  · intro ts hts
    have hts2 : md = some ts := hts
    subst hts2
    constructor
    · show FuncRecord.md_index _ = mdSpecSum ts
      unfold FuncRecord.md_index
      exact mdIndexValue_eq_spec ts
    · unfold mdStep at hm
      cases htop : (sccTryBlock primesTable (h.tarjanOf f)).2.1 with
      | none => rw [htop] at hm; simp [pure, Except.pure] at hm
      | some topoS =>
        rw [htop] at hm
        dsimp only at hm
        cases hmt : mdTuplesOf st.bbTopoNum st.bbDegree st.bbEdges topoS with
        | error err => rw [hmt] at hm; simp [Except.map] at hm
        | ok ts2 =>
          rw [hmt] at hm
          simp only [Except.map, Except.ok.injEq, Option.some.injEq] at hm
          subst hm
          refine ⟨fstart, st, topoS, hg, he, ?_, ?_⟩
          · show (sccTryBlock primesTable (h.tarjanOf f)).2.1 = some topoS
            exact htop
          · unfold mdTuplesOf at hmt
            obtain ⟨ts3, hts3, hfa⟩ := mdFold_forall2 st.bbTopoNum
              (buildTopoOrder topoS) st.bbDegree st.bbEdges [] ts2 hmt
            rw [hts3, List.nil_append]
            exact hfa.imp (fun e2 t2 h2 => mdTupleOf_elim _ _ _ e2 t2 h2)

/-- The C9 environment: two valid one-instruction blocks with one
control-flow edge `64 → 80`, and a tarjan oracle answering the two
singleton SCCs in topological order. -/
def hC9 : Host :=
  { hostBase with
    getFunc := fun a => if a = 64 then some 64 else none,
    flowOf := fun _ =>
      [ { bid := 0, startEA := 64, endEA := 66, insns := [ nopAt 64 ],
          succs := [ { bid := 1, startEA := 80, endEA := 82 } ],
          preds := [] },
        { bid := 1, startEA := 80, endEA := 82, insns := [ nopAt 80 ],
          succs := [],
          preds := [ { bid := 0, startEA := 64, endEA := 66 } ] } ],
    tarjanOf := fun _ => some { sccs := [ [ 80 ], [ 64 ] ],
                                topo := [ [ 0 ], [ 1 ] ] } }

def rC9 : FuncRecord := recOf (read_function hC9 64)

def tsC9 : List MDTuple := [ { z0 := 0, z1 := 0, z2 := 1, z3 := 1, z4 := 0 } ]

theorem c9_witness :
    rC9.mdTuples = some tsC9 ∧
    (rC9.md_index = mdSpecSum tsC9 ∧
      ∃ fstart st topoS,
        hC9.getFunc 64 = some fstart ∧
        extractPhase hC9 64 fstart (hC9.flowOf 64) = .ok st ∧
        rC9.bb_topological = some topoS ∧
        List.Forall₂
          (mdEdgeTuple st.bbTopoNum (buildTopoOrder topoS) st.bbDegree)
          st.bbEdges tsC9) :=
  ⟨rfl, (c9_md_index hC9 64 rC9 rfl rfl).2 tsC9 rfl⟩

/-! ### C8: order-insensitivity of the prime fingerprints -/

/-- The mnemonic factor of src 1558-1559: the prime at the sorted
vocabulary index of the mnemonic, `1` for mnemonics outside the
vocabulary, `IndexError` when the prime table is too short for the
index. -/
def mnemFactor (vocab : List String) (m : String) : Except PyErr Nat :=
  if List.contains vocab m then
    match primesTable.get? (vocab.indexOf m) with
    | some p => pure p
    | none => throw PyErr.indexError
  else pure 1

/-- The factor's numeric value (`1` on the error case, which never
occurs in a completed extraction). -/
def factorVal (vocab : List String) (m : String) : Nat :=
  match mnemFactor vocab m with
  | .ok p => p
  | .error _ => 1

/-- The mnemonic fingerprint of a stream: the product of the
per-mnemonic factors, a function of the stream's multiset. -/
def streamProd (vocab : List String) (ms : List String) : Nat :=
  (ms.map (factorVal vocab)).prod

/-- The mnemonic stream of a flow graph in iteration order: the
mnemonics of the instructions of the non-skipped blocks. -/
def mnemStream (blocks : List BBlock) : List String :=
  (blocks.filter (fun b => !(decide (b.endEA = 0 ∨ b.endEA = BADADDR)))).bind
    (fun b => b.insns.map (fun i => i.mnem))

theorem foldl_spp {α : Type} (F : ExtractSt → α → ExtractSt)
    (hF : ∀ s a, (F s a).mnemonics_spp = s.mnemonics_spp) :
    ∀ (l : List α) (s : ExtractSt),
      (List.foldl F s l).mnemonics_spp = s.mnemonics_spp := by
  intro l
  induction l with
  | nil => intro s; rfl
  | cons a l ih => intro s; rw [List.foldl_cons, ih, hF]

theorem strStep_spp (h : Host) (s : ExtractSt) (d : Nat) :
    (strStep h s d).mnemonics_spp = s.mnemonics_spp := by
  unfold strStep
  (repeat' split) <;> rfl

theorem constStep_spp (h : Host) (x : Insn) (s : ExtractSt) (o : Oper) :
    (constStep h x s o).mnemonics_spp = s.mnemonics_spp := by
  unfold constStep
  rw [foldl_spp (strStep h) (fun s2 a => strStep_spp h s2 a)]
  split <;> rfl

theorem calleeStep_spp (h : Host) (fstart : Nat) (s : ExtractSt) (c : Nat) :
    (calleeStep h fstart s c).mnemonics_spp = s.mnemonics_spp := by
  unfold calleeStep
  (repeat' split) <;> rfl

theorem insnTail_spp (h : Host) (fstart : Nat) (blockEA : Int)
    (st : ExtractSt) (idata : List InsRow) (x : Insn) :
    (insnTail h fstart blockEA st idata x).1.mnemonics_spp
      = st.mnemonics_spp := by
  have hc : ∀ (s : ExtractSt),
      (List.foldl (constStep h x) s x.ops).mnemonics_spp
        = s.mnemonics_spp :=
    fun s => foldl_spp (constStep h x)
      (fun s2 a => constStep_spp h x s2 a) x.ops s
  have hk : ∀ (s : ExtractSt),
      (List.foldl (calleeStep h fstart) s x.crefs0).mnemonics_spp
        = s.mnemonics_spp :=
    fun s => foldl_spp (calleeStep h fstart)
      (fun s2 a => calleeStep_spp h fstart s2 a) x.crefs0 s
  unfold insnTail
  (repeat' split) <;> (cases hop : opName h x) <;> (repeat' split) <;>
    (try simp only [hc, hk]) <;> (repeat' split) <;>
    (try simp only [hc, hk])

theorem processInsn_spp (h : Host) (vocab : List String) (fstart : Nat)
    (blockEA : Int) (acc : ExtractSt × List InsRow) (x : Insn)
    (res : ExtractSt × List InsRow)
    (hp : processInsn h vocab fstart blockEA acc x = .ok res) :
    ∃ p, mnemFactor vocab x.mnem = .ok p ∧
      res.1.mnemonics_spp = acc.1.mnemonics_spp * p := by
  unfold processInsn at hp
  by_cases hc : List.contains vocab x.mnem = true
  · rw [if_pos hc] at hp
    cases hg : primesTable.get? (vocab.indexOf x.mnem) with
    | none =>
      rw [hg] at hp
      simp [exceptThrow_eq, exceptBind_err] at hp
    | some p =>
      rw [hg] at hp
      simp only [pure, Except.pure, exceptBind_ok, Except.ok.injEq] at hp
      refine ⟨p, by unfold mnemFactor; rw [if_pos hc, hg]; rfl, ?_⟩
      rw [← hp, insnTail_spp]
  · rw [if_neg hc] at hp
    simp only [pure, Except.pure, exceptBind_ok, Except.ok.injEq] at hp
    refine ⟨1, by unfold mnemFactor; rw [if_neg hc]; rfl, ?_⟩
    rw [← hp, insnTail_spp, Nat.mul_one]

theorem insnFold_spp (h : Host) (vocab : List String) (fstart : Nat)
    (blockEA : Int) :
    ∀ (insns : List Insn) (acc res : ExtractSt × List InsRow),
      insns.foldlM (processInsn h vocab fstart blockEA) acc = .ok res →
      res.1.mnemonics_spp = acc.1.mnemonics_spp
        * streamProd vocab (insns.map (fun i => i.mnem)) := by
  intro insns
  induction insns with
  | nil =>
    intro acc res hres
    simp only [List.foldlM_nil, pure, Except.pure, Except.ok.injEq] at hres
    rw [← hres]
    simp [streamProd]
  | cons x xs ih =>
    intro acc res hres
    simp only [List.foldlM_cons] at hres
    cases hp : processInsn h vocab fstart blockEA acc x with
    | error e =>
      rw [hp] at hres
      simp [exceptBind_err] at hres
    | ok pr =>
      rw [hp] at hres
      simp only [exceptBind_ok] at hres
      obtain ⟨p, hfac, hspp⟩ :=
        processInsn_spp h vocab fstart blockEA acc x pr hp
      rw [ih pr res hres, hspp]
      simp [streamProd, factorVal, hfac, Nat.mul_assoc]

theorem blockPrep_spp (s : ExtractSt) (a : Int) :
    (blockPrep s a).mnemonics_spp = s.mnemonics_spp := rfl

theorem blockPost_spp (s : ExtractSt) (a : Int) (idata : List InsRow) :
    (blockPost s a idata).mnemonics_spp = s.mnemonics_spp := by
  unfold blockPost
  dsimp only
  (repeat' split) <;> rfl

theorem succStep_spp (h : Host) (blockEA : Int) (s : ExtractSt) (sb : BBRef) :
    (succStep h blockEA s sb).mnemonics_spp = s.mnemonics_spp := by
  unfold succStep
  dsimp only
  (repeat' split) <;> rfl

theorem predStep_spp (h : Host) (blockEA : Int) (s s2 : ExtractSt)
    (pb : BBRef) (hps : predStep h blockEA s pb = .ok s2) :
    s2.mnemonics_spp = s.mnemonics_spp := by
  unfold predStep at hps
  dsimp only at hps
  (repeat' split at hps) <;>
    first
    | (simp only [pure, Except.pure, Except.ok.injEq] at hps; rw [← hps])
    | simp [exceptThrow_eq] at hps

theorem predFold_spp (h : Host) (blockEA : Int) :
    ∀ (l : List BBRef) (s s2 : ExtractSt),
      l.foldlM (predStep h blockEA) s = .ok s2 →
      s2.mnemonics_spp = s.mnemonics_spp := by
  intro l
  induction l with
  | nil =>
    intro s s2 hs
    simp only [List.foldlM_nil, pure, Except.pure, Except.ok.injEq] at hs
    rw [← hs]
  | cons pb l ih =>
    intro s s2 hs
    simp only [List.foldlM_cons] at hs
    cases hps : predStep h blockEA s pb with
    | error e => rw [hps] at hs; simp [exceptBind_err] at hs
    | ok s1 =>
      rw [hps] at hs
      simp only [exceptBind_ok] at hs
      rw [ih s1 s2 hs, predStep_spp h blockEA s s1 pb hps]

theorem processBlock_spp (h : Host) (vocab : List String) (fstart : Nat)
    (st st2 : ExtractSt) (b : BBlock)
    (hp : processBlock h vocab fstart st b = .ok st2) :
    st2.mnemonics_spp = st.mnemonics_spp
      * streamProd vocab (b.insns.map (fun i => i.mnem)) := by
  unfold processBlock at hp
  dsimp only at hp
  cases hf : b.insns.foldlM
      (processInsn h vocab fstart ((b.startEA : Int) - (h.imageBase : Int)))
      (blockPrep st ((b.startEA : Int) - (h.imageBase : Int)), []) with
  | error e => rw [hf] at hp; simp [exceptBind_err] at hp
  | ok pr =>
    rw [hf] at hp
    simp only [exceptBind_ok] at hp
    have h1 := insnFold_spp h vocab fstart
      ((b.startEA : Int) - (h.imageBase : Int)) b.insns _ pr hf
    have h2 := predFold_spp h ((b.startEA : Int) - (h.imageBase : Int)) b.preds _ st2 hp
    rw [h2, foldl_spp (succStep h ((b.startEA : Int) - (h.imageBase : Int)))
      (fun s2 a => succStep_spp h _ s2 a), blockPost_spp, h1, blockPrep_spp]

theorem blocksFold_spp (h : Host) (vocab : List String) (fstart : Nat) :
    ∀ (blocks : List BBlock) (s s2 : ExtractSt),
      blocks.foldlM (blockStep h vocab fstart) s = .ok s2 →
      s2.mnemonics_spp = s.mnemonics_spp
        * streamProd vocab (mnemStream blocks) := by
  intro blocks
  induction blocks with
  | nil =>
    intro s s2 hs
    simp only [List.foldlM_nil, pure, Except.pure, Except.ok.injEq] at hs
    rw [← hs]
    simp [mnemStream, streamProd]
  | cons b bs ih =>
    intro s s2 hs
    simp only [List.foldlM_cons] at hs
    by_cases hv : b.endEA = 0 ∨ b.endEA = BADADDR
    · unfold blockStep at hs
      rw [if_pos hv] at hs
      simp only [pure, Except.pure, exceptBind_ok] at hs
      have hstream : mnemStream (b :: bs) = mnemStream bs := by
        unfold mnemStream
        rw [List.filter_cons]
        simp [hv]
      rw [ih s s2 hs, hstream]
    · unfold blockStep at hs
      rw [if_neg hv] at hs
      cases hpb : processBlock h vocab fstart s b with
      | error e => rw [hpb] at hs; simp [exceptBind_err] at hs
      | ok s1 =>
        rw [hpb] at hs
        simp only [exceptBind_ok] at hs
        have hstream : mnemStream (b :: bs)
            = b.insns.map (fun i => i.mnem) ++ mnemStream bs := by
          unfold mnemStream
          rw [List.filter_cons]
          simp [hv]
        have happ : ∀ (l1 l2 : List String),
            streamProd vocab (l1 ++ l2)
              = streamProd vocab l1 * streamProd vocab l2 := by
          intro l1 l2
          simp [streamProd]
        rw [ih s1 s2 hs, processBlock_spp h vocab fstart s s1 b hpb,
          hstream, happ, Nat.mul_assoc]

theorem extractPhase_spp (h : Host) (f fstart : Nat) (blocks : List BBlock)
    (st : ExtractSt) (he : extractPhase h f fstart blocks = .ok st) :
    st.mnemonics_spp = streamProd (sortedVocab h) (mnemStream blocks) := by
  unfold extractPhase at he
  have := blocksFold_spp h (sortedVocab h) fstart blocks (initExtract h f) st he
  rw [this]
  exact Nat.one_mul _

theorem streamProd_perm (vocab : List String) {ms1 ms2 : List String}
    (hp : List.Perm ms1 ms2) :
    streamProd vocab ms1 = streamProd vocab ms2 :=
  (hp.map (factorVal vocab)).prod_eq

/-- The SCC sizes greater than 1, in list order. -/
def sccSizes (sccs : List (List Int)) : List Nat :=
  (sccs.map List.length).filter (fun v => decide (1 < v))

/-- The SCC fingerprint the spec describes: one prime per SCC size
greater than 1, indexed by the size. -/
def sccProd (sccs : List (List Int)) : Nat :=
  ((sccSizes sccs).map (fun v => primesTable.getD v 0)).prod

theorem sccSppLoop_bounded :
    ∀ (sccs : List (List Int)),
      (∀ item ∈ sccs, 1 < item.length → item.length < primesTable.length) →
      ∀ acc, sccSppLoop primesTable sccs acc = (acc * sccProd sccs, true) := by
  intro sccs
  induction sccs with
  | nil => intro _ acc; simp [sccSppLoop, sccProd, sccSizes]
  | cons item rest ih =>
    intro hbd acc
    unfold sccSppLoop
    by_cases h1 : item.length > 1
    · rw [if_pos h1]
      have hlt := hbd item (List.mem_cons_self item rest) h1
      rw [List.get?_eq_get hlt]
      dsimp only
      rw [ih (fun it hit h2 => hbd it (List.mem_cons_of_mem item hit) h2)
        (acc * primesTable.get ⟨item.length, hlt⟩)]
      have hgd : primesTable.getD item.length 0
          = primesTable.get ⟨item.length, hlt⟩ := by
        rw [List.getD_eq_get?, List.get?_eq_get hlt]
        rfl
      have hlist : sccProd (item :: rest)
          = primesTable.getD item.length 0 * sccProd rest := by
        unfold sccProd sccSizes
        rw [List.map_cons, List.filter_cons]
        simp [h1]
      rw [hlist, hgd, Nat.mul_assoc]
    · rw [if_neg h1]
      rw [ih (fun it hit h2 => hbd it (List.mem_cons_of_mem item hit) h2) acc]
      have h1b : ¬(1 < item.length) := h1
      simp [sccProd, sccSizes, List.filter_cons, h1b]

/-- C8: (1) the mnemonic-prime hash of an exported record is a multiset
fingerprint: two exported functions (same sorted vocabulary) whose
instruction streams are permutations of one another get equal
`mnemonics_spp`.  (2) the SCC-prime hash is a multiset fingerprint of
the SCC sizes greater than 1 PROVIDED every such size is within the
prime table (see the counterexample for the unbounded case). -/
theorem c8_fingerprints :
    (∀ (h1 h2 : Host) (f1 f2 : Nat) (r1 r2 : FuncRecord),
      h1.hooks = none → h2.hooks = none →
      sortedVocab h1 = sortedVocab h2 →
      read_function h1 f1 = .ok (some r1) →
      read_function h2 f2 = .ok (some r2) →
      List.Perm (mnemStream (h1.flowOf f1)) (mnemStream (h2.flowOf f2)) →
      r1.mnemonics_spp = r2.mnemonics_spp) ∧
    (∀ (sccs1 sccs2 : List (List Int)) (t1 t2 : List (List Nat)),
      (∀ item ∈ sccs1, 1 < item.length → item.length < primesTable.length) →
      List.Perm (sccSizes sccs1) (sccSizes sccs2) →
      (sccTryBlock primesTable (some { sccs := sccs1, topo := t1 })).2.2
        = (sccTryBlock primesTable (some { sccs := sccs2, topo := t2 })).2.2) := by
  constructor
  · intro h1 h2 f1 f2 r1 r2 hh1 hh2 hvoc hr1 hr2 hperm
    obtain ⟨fs1, st1, _, _, _, _, _, _, he1, _, _, _, _, _, hrec1⟩ :=
      read_function_ok_elim h1 f1 r1 hh1 hr1
    obtain ⟨fs2, st2, _, _, _, _, _, _, he2, _, _, _, _, _, hrec2⟩ :=
      read_function_ok_elim h2 f2 r2 hh2 hr2
    subst hrec1
    subst hrec2
    show st1.mnemonics_spp = st2.mnemonics_spp
    rw [extractPhase_spp h1 f1 fs1 (h1.flowOf f1) st1 he1,
      extractPhase_spp h2 f2 fs2 (h2.flowOf f2) st2 he2, hvoc,
      streamProd_perm (sortedVocab h2) hperm]
  · intro sccs1 sccs2 t1 t2 hbd1 hperm
    have hbd2 : ∀ item ∈ sccs2, 1 < item.length →
        item.length < primesTable.length := by
      intro item hit h2
      have hmem : item.length ∈ sccSizes sccs2 := by
        unfold sccSizes
        rw [List.mem_filter]
        exact ⟨List.mem_map_of_mem List.length hit, by simpa using h2⟩
      have hmem1 : item.length ∈ sccSizes sccs1 := hperm.symm.subset hmem
      unfold sccSizes at hmem1
      rw [List.mem_filter] at hmem1
      obtain ⟨it1, hit1, hlen⟩ := List.mem_map.mp hmem1.1
      have := hbd1 it1 hit1 (by rw [hlen]; simpa using hmem1.2)
      rw [hlen] at this
      exact this
    show (sccTryBlock primesTable (some { sccs := sccs1, topo := t1 })).2.2
      = (sccTryBlock primesTable (some { sccs := sccs2, topo := t2 })).2.2
    unfold sccTryBlock
    dsimp only
    rw [sccSppLoop_bounded sccs1 hbd1 1, sccSppLoop_bounded sccs2 hbd2 1]
    have : sccProd sccs1 = sccProd sccs2 :=
      (hperm.map (fun v => primesTable.getD v 0)).prod_eq
    simp [this]

/-- C8 counterexample: WITHOUT the size bound the SCC-prime hash is
order-sensitive.  An SCC of 565 blocks overflows the 564-entry prime
table; the `IndexError` is caught by the handler of src 1731, which
keeps the partially accumulated `strongly_connected_spp`.  With the
oversized SCC first the product is still `1`; with it last the factor
`primes[2] = 5` of the small SCC has already been folded in, so the two
orderings of the same SCC multiset give hashes `1` and `5`. -/
theorem c8_counterexample :
    List.Perm (sccSizes [ List.replicate 565 (0 : Int), [ 0, 1 ] ])
      (sccSizes [ [ (0 : Int), 1 ], List.replicate 565 0 ]) ∧
    (sccTryBlock primesTable
      (some { sccs := [ List.replicate 565 (0 : Int), [ 0, 1 ] ], topo := [] })).2.2
      = 1 ∧
    (sccTryBlock primesTable
      (some { sccs := [ [ (0 : Int), 1 ], List.replicate 565 0 ], topo := [] })).2.2
      = 5 := by
  refine ⟨?_, by decide, by decide⟩
  have : sccSizes [ List.replicate 565 (0 : Int), [ 0, 1 ] ] = [ 565, 2 ] := by decide
  rw [this]
  have h2 : sccSizes [ [ (0 : Int), 1 ], List.replicate 565 0 ] = [ 2, 565 ] := by decide
  rw [h2]
  exact List.Perm.swap 2 565 []

/-- The two C8 witness environments: the same single valid block with
two instructions, `mov` then `add` in one and `add` then `mov` in the
other, over the same two-mnemonic vocabulary. -/
def insC8 (a : Nat) (m : String) : Insn :=
  { addr := a, mnem := m, disasm := m, itemSize := 2,
    decodedSize := 2, ops := [], drefs := [], crefs0 := [],
    opValue0 := -1, opValue1 := -1, cmt0 := none, cmt1 := none }

def hC8a : Host :=
  { hostBase with
    rawInstructionList := [ "mov", "add" ],
    getFunc := fun a => if a = 64 then some 64 else none,
    flowOf := fun _ =>
      [ { bid := 0, startEA := 64, endEA := 68,
          insns := [ insC8 64 ("mov"), insC8 66 ("add") ],
          succs := [], preds := [] } ] }

def hC8b : Host :=
  { hostBase with
    rawInstructionList := [ "mov", "add" ],
    getFunc := fun a => if a = 64 then some 64 else none,
    flowOf := fun _ =>
      [ { bid := 0, startEA := 64, endEA := 68,
          insns := [ insC8 64 ("add"), insC8 66 ("mov") ],
          succs := [], preds := [] } ] }

def rC8a : FuncRecord := recOf (read_function hC8a 64)

def rC8b : FuncRecord := recOf (read_function hC8b 64)

theorem c8_witness :
    rC8a.mnemonics_spp = rC8b.mnemonics_spp ∧
    (sccTryBlock primesTable
        (some { sccs := [ [ (0 : Int), 1 ], [ 2, 3 ] ], topo := [] })).2.2
      = (sccTryBlock primesTable
        (some { sccs := [ [ (2 : Int), 3 ], [ 0, 1 ] ], topo := [] })).2.2 :=
  ⟨c8_fingerprints.1 hC8a hC8b 64 64 rC8a rC8b rfl rfl rfl rfl rfl
      (by decide),
   c8_fingerprints.2 [ [ (0 : Int), 1 ], [ 2, 3 ] ] [ [ (2 : Int), 3 ], [ 0, 1 ] ]
      [] [] (by decide) (by decide)⟩

/-! ### C5 and C10: the resumable export pipeline -/

/-- The committed records' primes column. -/
def primesOf (l : List FuncRecord) : List Nat := l.map (fun r => r.primeVal)

theorem recalc_foldl (l : List FuncRecord) :
    ∀ (p : Nat) (m : Multiset Nat),
      l.foldl (fun acc r => (acc.1 * r.primeVal, r.primeVal ::ₘ acc.2)) (p, m)
        = (p * (primesOf l).prod, m + (↑(primesOf l) : Multiset Nat)) := by
  induction l with
  | nil => intro p m; simp [primesOf]
  | cons r l ih =>
    intro p m
    rw [List.foldl_cons, ih]
    refine Prod.ext ?_ ?_
    · show p * r.primeVal * (primesOf l).prod
        = p * (primesOf (r :: l)).prod
      simp [primesOf, Nat.mul_assoc]
    · show (r.primeVal ::ₘ m) + (↑(primesOf l) : Multiset Nat)
        = m + (↑(primesOf (r :: l)) : Multiset Nat)
      show (r.primeVal ::ₘ m) + (↑(primesOf l) : Multiset Nat)
        = m + (↑(r.primeVal :: primesOf l) : Multiset Nat)
      rw [show ((r.primeVal :: primesOf l : List Nat) : Multiset Nat)
            = r.primeVal ::ₘ ((primesOf l : List Nat) : Multiset Nat) from rfl,
        Multiset.add_cons, Multiset.cons_add]

theorem recalculate_primes_eq (l : List FuncRecord) :
    recalculate_primes l
      = ((primesOf l).prod, (↑(primesOf l) : Multiset Nat)) := by
  unfold recalculate_primes
  rw [recalc_foldl]
  simp

/-- A non-crashed `exportStep` reads the function, skips it when
filtered, and otherwise commits it. -/
theorem exportStep_false (h : Host) (sF : Option Int) (rs : List FuncRecord)
    (p : Nat) (m : Multiset Nat) (func : Nat) :
    exportStep h sF
        { crashed := false, records := rs, cgPrimes := p, cgHist := m } func
      = (read_function h func).bind (fun props? =>
          match props? with
          | none => pure { crashed := false, records := rs,
                           cgPrimes := p, cgHist := m }
          | some r => pure { crashed := false, records := rs ++ [ r ],
                             cgPrimes := p * r.primeVal,
                             cgHist := r.primeVal ::ₘ m }) := by
  unfold exportStep
  dsimp only
  rw [if_neg (by simp)]

/-- The export loop from a non-crashed state is `readAll` plus
aggregation — in particular it does not depend on the recovered crash
address. -/
theorem exportFold_false (h : Host) (sF : Option Int) :
    ∀ (l : List Nat) (rs : List FuncRecord) (p : Nat) (m : Multiset Nat),
      l.foldlM (exportStep h sF)
          { crashed := false, records := rs, cgPrimes := p, cgHist := m }
        = (readAll h l).map (fun new =>
            { crashed := false, records := rs ++ new,
              cgPrimes := p * (primesOf new).prod,
              cgHist := m + (↑(primesOf new) : Multiset Nat) }) := by
  intro l
  induction l with
  | nil =>
    intro rs p m
    simp [readAll, primesOf, Except.map, pure, Except.pure]
  | cons g l ih =>
    intro rs p m
    rw [List.foldlM_cons, exportStep_false]
    unfold readAll
    cases hg : read_function h g with
    | error e =>
      simp [exceptDtBind_err, exceptBind_err, Except.map]
    | ok props? =>
      cases props? with
      | none =>
        simp only [exceptDtBind_ok, pure, Except.pure, exceptBind_ok]
        exact ih rs p m
      | some r =>
        simp only [exceptDtBind_ok, pure, Except.pure, exceptBind_ok]
        rw [ih (rs ++ [ r ]) (p * r.primeVal) (r.primeVal ::ₘ m)]
        cases hra : readAll h l with
        | error e => simp [Except.map]
        | ok rest =>
          simp only [Except.map, Except.ok.injEq, ExpSt.mk.injEq]
          refine ⟨trivial, by simp [List.append_assoc], by simp [primesOf, Nat.mul_assoc], ?_⟩
          show r.primeVal ::ₘ m + (↑(primesOf rest) : Multiset Nat)
            = m + (↑(r.primeVal :: primesOf rest) : Multiset Nat)
          rw [show ((r.primeVal :: primesOf rest : List Nat) : Multiset Nat)
                = r.primeVal ::ₘ ((primesOf rest : List Nat) : Multiset Nat) from rfl,
            Multiset.add_cons, Multiset.cons_add]

/-- Crashed-mode skip (src 740-743): while the flag is set, every
function whose RVA differs from the recovered address is skipped
without being read. -/
theorem exportFold_skip (h : Host) (a : Int) :
    ∀ (l : List Nat) (st : ExpSt), st.crashed = true →
      (∀ g ∈ l, ((g : Int) - (h.imageBase : Int)) ≠ a) →
      l.foldlM (exportStep h (some a)) st = .ok st := by
  intro l
  induction l with
  | nil => intro st _ _; rfl
  | cons g l ih =>
    intro st hcr hall
    rw [List.foldlM_cons]
    unfold exportStep
    rw [hcr]
    rw [if_pos rfl, if_pos (by
      intro hcon
      exact hall g (List.mem_cons_self g l) (Option.some.inj hcon).symm)]
    simp only [pure, Except.pure, exceptBind_ok]
    exact ih st hcr (fun g2 hg2 => hall g2 (List.mem_cons_of_mem g hg2))

/-- The RVA stored in an exported record is the function's offset from
the image base (with no hooks installed). -/
theorem read_function_rva (h : Host) (g : Nat) (r : FuncRecord)
    (hh : h.hooks = none) (hr : read_function h g = .ok (some r)) :
    r.rva = (g : Int) - (h.imageBase : Int) := by
  obtain ⟨fstart, st, bbT, loops, ap, md, seg, _, _, _, _, _, _, _, hrec⟩ :=
    read_function_ok_elim h g r hh hr
  subst hrec
  rfl

/-- The last committed record comes from some function `q` of the read
list, and every function after `q` was filtered out. -/
theorem readAll_last_split (h : Host) :
    ∀ (Q : List Nat) (RQ : List FuncRecord),
      readAll h Q = .ok RQ → RQ ≠ [] →
      ∃ Q1 q Q2 r, Q = Q1 ++ q :: Q2 ∧
        read_function h q = .ok (some r) ∧
        RQ.getLast? = some r ∧ readAll h Q2 = .ok [] := by
  intro Q
  induction Q with
  | nil =>
    intro RQ hra hne
    simp only [readAll, pure, Except.pure, Except.ok.injEq] at hra
    exact absurd hra.symm hne
  | cons g Q ih =>
    intro RQ hra hne
    unfold readAll at hra
    cases hg : read_function h g with
    | error e => rw [hg] at hra; simp [exceptDtBind_err] at hra
    | ok props? =>
      rw [hg] at hra
      rw [exceptDtBind_ok] at hra
      cases props? with
      | none =>
        obtain ⟨Q1, q, Q2, r, hsplit, hq, hlast, hQ2⟩ := ih RQ hra hne
        exact ⟨g :: Q1, q, Q2, r, by rw [hsplit]; rfl, hq, hlast, hQ2⟩
      | some r0 =>
        cases hrq : readAll h Q with
        | error e => rw [hrq] at hra; simp [Except.map] at hra
        | ok rest =>
          rw [hrq] at hra
          simp only [Except.map, Except.ok.injEq] at hra
          subst hra
          by_cases hrest : rest = []
          · subst hrest
            exact ⟨[], g, Q, r0, rfl, hg, rfl, hrq⟩
          · obtain ⟨Q1, q, Q2, r, hsplit, hq, hlast, hQ2⟩ := ih rest hrq hrest
            refine ⟨g :: Q1, q, Q2, r, by rw [hsplit]; rfl, hq, ?_, hQ2⟩
            cases rest with
            | nil => exact absurd rfl hrest
            | cons x xs => rw [List.getLast?_cons_cons]; exact hlast

theorem readAll_cons (h : Host) (g : Nat) (l : List Nat) :
    readAll h (g :: l) = Except.bind (read_function h g)
      (fun props? =>
        match props? with
        | none => readAll h l
        | some r => (readAll h l).map (fun rest => r :: rest)) := rfl

theorem readAll_append (h : Host) :
    ∀ (l1 l2 : List Nat),
      readAll h (l1 ++ l2) = Except.bind (readAll h l1)
        (fun r1 => (readAll h l2).map (fun r2 => r1 ++ r2)) := by
  intro l1
  induction l1 with
  | nil =>
    intro l2
    show readAll h l2 = Except.bind (pure []) _
    rw [show (pure [] : Except PyErr (List FuncRecord)) = Except.ok [] from rfl,
      exceptDtBind_ok]
    cases hr2 : readAll h l2 <;> simp [Except.map]
  | cons g l1 ih =>
    intro l2
    rw [List.cons_append, readAll_cons, readAll_cons]
    cases hg : read_function h g with
    | error e => simp [exceptDtBind_err]
    | ok props? =>
      rw [exceptDtBind_ok, exceptDtBind_ok]
      cases props? with
      | none =>
        dsimp only
        exact ih l2
      | some r =>
        dsimp only
        rw [ih l2]
        cases hr1 : readAll h l1 with
        | error e => simp [Except.map, exceptDtBind_err]
        | ok r1 =>
          rw [exceptDtBind_ok]
          cases hr2 : readAll h l2 with
          | error e => simp [Except.map, exceptDtBind_err, exceptDtBind_ok]
          | ok r2 => simp [Except.map, exceptDtBind_ok]

/-- A fresh (non-resumed) `do_export` run appends `readAll`'s records
to the table and aggregates their primes. -/
theorem do_export_false (h : Host) (funcs : List Nat)
    (committed : List FuncRecord) :
    do_export h funcs committed false
      = (readAll h funcs).map (fun new =>
          { records := committed ++ new,
            cgPrimes := (primesOf new).prod,
            cgHist := (↑(primesOf new) : Multiset Nat),
            crashedFlag := false }) := by
  unfold do_export
  dsimp only
  rw [if_neg (by simp)]
  rw [exportFold_false h none funcs committed 1 0]
  cases hra : readAll h funcs with
  | error e => simp [Except.map, exceptBind_err]
  | ok new => simp [Except.map, exceptBind_ok, pure, Except.pure]

/-- The crashed-state step at the matching RVA clears the flag
(src 745-748). -/
theorem exportStep_clear (h : Host) (a : Int) (st : ExpSt) (func : Nat)
    (hcr : st.crashed = true)
    (heq : (func : Int) - (h.imageBase : Int) = a) :
    exportStep h (some a) st func = .ok { st with crashed := false } := by
  unfold exportStep
  rw [hcr, if_pos rfl, if_neg (by rw [heq]; simp)]
  rfl

/-- C5: resuming an interrupted export over the same function list
yields exactly the uninterrupted outcome.  `Q` is the prefix the
crashed session completed (committing `outQ.records`), `rest` the
remainder; the resumed run re-derives the aggregates from the committed
records, skips up to and including the last committed function, and
continues identically. -/
theorem c5_resume_equivalence (h : Host) (Q rest : List Nat) (outQ : ExpOut)
    (hh : h.hooks = none) (hnd : (Q ++ rest).Nodup)
    (hQ : do_export h Q [] false = .ok outQ)
    (hne : outQ.records ≠ []) :
    do_export h (Q ++ rest) outQ.records true
      = do_export h (Q ++ rest) [] false := by
  rw [do_export_false] at hQ
  cases hra : readAll h Q with
  | error e => rw [hra] at hQ; simp [Except.map] at hQ
  | ok RQ =>
    rw [hra] at hQ
    simp only [Except.map, Except.ok.injEq] at hQ
    have hrecs : outQ.records = RQ := by rw [← hQ]; simp
    have hRQne : RQ ≠ [] := by rw [← hrecs]; exact hne
    obtain ⟨Q1, q, Q2, r, hsplit, hq, hlast, hQ2⟩ :=
      readAll_last_split h Q RQ hra hRQne
    have hrva : r.rva = (q : Int) - (h.imageBase : Int) :=
      read_function_rva h q r hh hq
    have hlist : Q ++ rest = Q1 ++ (q :: (Q2 ++ rest)) := by
      rw [hsplit, List.append_assoc]
      rfl
    rw [do_export_false h (Q ++ rest) []]
    rw [readAll_append h Q rest, hra, exceptDtBind_ok]
    unfold do_export
    dsimp only
    rw [if_pos rfl, hrecs]
    have hglc : get_last_crash_func RQ = some r.rva := by
      unfold get_last_crash_func
      rw [hlast]
      rfl
    rw [hglc]
    dsimp only
    rw [recalculate_primes_eq]
    dsimp only
    rw [hlist, List.foldlM_append]
    have hnd2 : (Q1 ++ (q :: (Q2 ++ rest))).Nodup := by
      rw [← hlist]; exact hnd
    have hskip : ∀ g ∈ Q1, ((g : Int) - (h.imageBase : Int)) ≠ r.rva := by
      intro g hg hcon
      rw [hrva] at hcon
      have hgq : g = q := by
        have : (g : Int) = (q : Int) := by omega
        exact_mod_cast this
      subst hgq
      exact (List.disjoint_of_nodup_append hnd2) hg
        (List.mem_cons_self g (Q2 ++ rest))
    rw [exportFold_skip h r.rva Q1 _ rfl hskip, exceptBind_ok,
      List.foldlM_cons,
      exportStep_clear h r.rva _ q rfl hrva.symm, exceptBind_ok]
    dsimp only
    rw [exportFold_false h (some r.rva) (Q2 ++ rest) RQ
      ((primesOf RQ).prod) (↑(primesOf RQ) : Multiset Nat)]
    rw [readAll_append h Q2 rest, hQ2, exceptDtBind_ok]
    cases hrr : readAll h rest with
    | error e => simp [Except.map, exceptBind_err]
    | ok new =>
      simp [Except.map, exceptBind_ok, pure, Except.pure, primesOf,
        Nat.mul_comm]

/-- C10: in resume mode, when the recovered address matches no
function's RVA, every function is skipped, the flag is never cleared,
no record is written, and the session still ends normally with the
crash sentinel removed. -/
theorem c10_stale_resume (h : Host) (funcs : List Nat)
    (committed : List FuncRecord) (a : Int)
    (hlast : get_last_crash_func committed = some a)
    (hmiss : ∀ g ∈ funcs, ((g : Int) - (h.imageBase : Int)) ≠ a) :
    export_session h funcs committed true
      = (.ok { records := committed,
               cgPrimes := (recalculate_primes committed).1,
               cgHist := (recalculate_primes committed).2,
               crashedFlag := true }, false) := by
  unfold export_session do_export
  dsimp only
  rw [if_pos rfl, hlast]
  dsimp only
  rw [exportFold_skip h a funcs _ rfl hmiss]
  rfl

/-- The C5 witness environment: two exportable functions at `64` and
`80`, each a single one-instruction block. -/
def hC5 : Host :=
  { hostBase with
    getFunc := fun b => if b = 64 ∨ b = 80 then some b else none,
    flowOf := fun b =>
      [ { bid := 0, startEA := b, endEA := b + 2, insns := [ nopAt b ],
          succs := [], preds := [] } ] }

def outC5 : ExpOut := expOutOf (do_export hC5 [ 64 ] [] false)

theorem c5_witness :
    do_export hC5 ([ 64 ] ++ [ 80 ]) outC5.records true
      = do_export hC5 ([ 64 ] ++ [ 80 ]) [] false :=
  c5_resume_equivalence hC5 [ 64 ] [ 80 ] outC5 rfl (by decide) rfl
    (by decide)

theorem c10_witness :
    export_session hostBase [ 5 ] [ someRecord ] true
      = (.ok { records := [ someRecord ],
               cgPrimes := (recalculate_primes [ someRecord ]).1,
               cgHist := (recalculate_primes [ someRecord ]).2,
               crashedFlag := true }, false) :=
  c10_stale_resume hostBase [ 5 ] [ someRecord ] 0 rfl
    (by intro g hg; rw [List.mem_singleton] at hg; subst hg; decide)

end Diaphora
